import Mathlib

/-!
Verification of the BESS analytics pipeline (data cleaning, derived features,
health metrics, anomaly detection) against its natural-language specification.

The tabular data model of the Python/pandas code is embedded shallowly:
a table is a list of named, dtype-tagged columns whose cells are values in
an extended rational domain `Val` (rationals plus `nan`, `inf`, `ninf`)
mirroring IEEE floating-point special values; pandas column operations become
list transformations.

Rational arithmetic is implemented through `Rat.divInt` (kernel-reducible, so
concrete tables evaluate by `decide`) and related to Mathlib's field
operations on `ℚ` by the bridge lemmas `qadd_eq`, `qsub_eq`, `qmul_eq`,
`qdiv_eq`, `qneg_eq`, `qabs_eq`.
-/

namespace BESS

/-! ## Kernel-reducible rational arithmetic -/

/-- Addition on `ℚ` via `Rat.divInt`, reducible by the kernel. -/
def qadd (a b : ℚ) : ℚ := Rat.divInt (a.num * b.den + b.num * a.den) (a.den * b.den)

/-- Subtraction on `ℚ` via `Rat.divInt`, reducible by the kernel. -/
def qsub (a b : ℚ) : ℚ := Rat.divInt (a.num * b.den - b.num * a.den) (a.den * b.den)

/-- Multiplication on `ℚ` via `Rat.divInt`, reducible by the kernel. -/
def qmul (a b : ℚ) : ℚ := Rat.divInt (a.num * b.num) (a.den * b.den)

/-- Division on `ℚ` via `Rat.divInt`, reducible by the kernel (0 at 0). -/
def qdiv (a b : ℚ) : ℚ := Rat.divInt (a.num * b.den) (a.den * b.num)

/-- Negation on `ℚ` via `Rat.divInt`, reducible by the kernel. -/
def qneg (a : ℚ) : ℚ := Rat.divInt (-a.num) a.den

/-- Absolute value on `ℚ`, reducible by the kernel. -/
def qabs (a : ℚ) : ℚ := if a.num < 0 then qneg a else a

/-! ## The cell value domain

`Val` models the values a pandas float/datetime cell can hold: a finite value
(`rat`, exact rational idealization of a float), positive/negative infinity,
and `nan` (which also stands for a missing value / `NaT`, exactly as in the
float-backed pandas columns of the source).  The operations follow IEEE-754
semantics on these values; comparisons with `nan` are false. -/

inductive Val where
  | nan : Val
  | inf : Val
  | ninf : Val
  | rat : ℚ → Val
deriving DecidableEq

namespace Val

/-- Is this value missing (`NaN`/`NaT`)?  Mirrors `pandas.isnull` on floats. -/
def isNaN : Val → Bool
  | .nan => true
  | _ => false

/-- IEEE negation. -/
def neg : Val → Val
  | .nan => .nan
  | .inf => .ninf
  | .ninf => .inf
  | .rat q => .rat (qneg q)

/-- IEEE addition. -/
def add : Val → Val → Val
  | .nan, _ => .nan
  | _, .nan => .nan
  | .inf, .ninf => .nan
  | .ninf, .inf => .nan
  | .inf, _ => .inf
  | _, .inf => .inf
  | .ninf, _ => .ninf
  | _, .ninf => .ninf
  | .rat a, .rat b => .rat (qadd a b)

/-- IEEE subtraction. -/
def sub (a b : Val) : Val := a.add b.neg

/-- IEEE multiplication. -/
def mul : Val → Val → Val
  | .nan, _ => .nan
  | _, .nan => .nan
  | .inf, .inf => .inf
  | .inf, .ninf => .ninf
  | .ninf, .inf => .ninf
  | .ninf, .ninf => .inf
  | .inf, .rat q => if q.num = 0 then .nan else if 0 < q.num then .inf else .ninf
  | .rat q, .inf => if q.num = 0 then .nan else if 0 < q.num then .inf else .ninf
  | .ninf, .rat q => if q.num = 0 then .nan else if 0 < q.num then .ninf else .inf
  | .rat q, .ninf => if q.num = 0 then .nan else if 0 < q.num then .ninf else .inf
  | .rat a, .rat b => .rat (qmul a b)

/-- IEEE division (numpy semantics: `x/0` is `±inf` for `x ≠ 0`, `nan` for
`x = 0`; the zero denominators produced by the modelled code are positive
zeros, so the `+0` sign convention applies). -/
def div : Val → Val → Val
  | .nan, _ => .nan
  | _, .nan => .nan
  | .inf, .inf => .nan
  | .inf, .ninf => .nan
  | .ninf, .inf => .nan
  | .ninf, .ninf => .nan
  | .inf, .rat q => if 0 ≤ q.num then .inf else .ninf
  | .ninf, .rat q => if 0 ≤ q.num then .ninf else .inf
  | .rat _, .inf => .rat 0
  | .rat _, .ninf => .rat 0
  | .rat a, .rat b =>
    if b.num = 0 then
      if a.num = 0 then .nan else if 0 < a.num then .inf else .ninf
    else .rat (qdiv a b)

/-- IEEE absolute value. -/
def abs : Val → Val
  | .nan => .nan
  | .inf => .inf
  | .ninf => .inf
  | .rat q => .rat (qabs q)

/-- IEEE strict less-than: any comparison with `nan` is false. -/
def ltB : Val → Val → Bool
  | .nan, _ => false
  | _, .nan => false
  | .ninf, .ninf => false
  | .ninf, _ => true
  | _, .ninf => false
  | .inf, _ => false
  | _, .inf => true
  | .rat a, .rat b => decide (a < b)

/-- IEEE less-or-equal: any comparison with `nan` is false. -/
def leB : Val → Val → Bool
  | .nan, _ => false
  | _, .nan => false
  | .ninf, _ => true
  | _, .ninf => false
  | _, .inf => true
  | .inf, _ => false
  | .rat a, .rat b => decide (a ≤ b)

/-- IEEE strict greater-than. -/
def gtB (a b : Val) : Bool := ltB b a

/-- IEEE greater-or-equal. -/
def geB (a b : Val) : Bool := leB b a

/-- Truthiness of a cell under `DataFrame.any` (`skipna=True`): missing
counts as false, any nonzero value as true. -/
def truthy : Val → Bool
  | .nan => false
  | .inf => true
  | .ninf => true
  | .rat q => !(q.num = 0)

/-- A boolean cell, as pandas stores it (False = 0, True = 1). -/
def ofBool (b : Bool) : Val := .rat (if b then 1 else 0)

/-- Is this value a finite rational? -/
def isFinite : Val → Bool
  | .rat _ => true
  | _ => false

/-- Total order used by `sort_values` (`na_position='last'`): missing values
sort after everything. -/
def leSort : Val → Val → Bool
  | _, .nan => true
  | .nan, _ => false
  | .ninf, _ => true
  | _, .ninf => false
  | _, .inf => true
  | .inf, _ => false
  | .rat a, .rat b => decide (a ≤ b)

end Val

/-! ## Tables

A pandas `DataFrame` is embedded column-major: an ordered list of named
columns, each carrying a dtype tag (`num` = numeric float/int dtype,
`dt` = `datetime64` — cells are epoch seconds, `NaT` is `Val.nan` —,
`boolDt` = bool, `obj` = object) and its list of cells. -/

inductive Dtype where
  | num : Dtype
  | dt : Dtype
  | boolDt : Dtype
  | obj : Dtype
deriving DecidableEq

structure Col where
  name : String
  dtype : Dtype
  cells : List Val
deriving DecidableEq

structure Table where
  cols : List Col
deriving DecidableEq

namespace Table

/-- Column labels, in order (`df.columns`). -/
def colNames (t : Table) : List String := t.cols.map Col.name

/-- `name in df.columns`. -/
def hasCol (t : Table) (n : String) : Bool := t.colNames.contains n

/-- Look a column up by name (first occurrence, like a pandas frame with
unique labels). -/
def getCol? (t : Table) (n : String) : Option Col :=
  t.cols.find? (fun c => c.name == n)

/-- The cells of column `n` (empty if absent). -/
def getCells (t : Table) (n : String) : List Val :=
  (t.getCol? n).elim [] Col.cells

/-- The dtype of column `n` (`obj` if absent). -/
def getDtype (t : Table) (n : String) : Dtype :=
  (t.getCol? n).elim Dtype.obj Col.dtype

/-- `df[n] = cells`: replace the column in place if the label exists,
otherwise append it on the right. -/
def setCol (t : Table) (n : String) (d : Dtype) (cs : List Val) : Table :=
  if t.hasCol n then
    ⟨t.cols.map (fun c => if c.name = n then ⟨n, d, cs⟩ else c)⟩
  else ⟨t.cols ++ [⟨n, d, cs⟩]⟩

/-- Row count (pandas tables are rectangular; see `Uniform`). -/
def nrows (t : Table) : Nat := (t.cols.head?).elim 0 (fun c => c.cells.length)

/-- Rectangularity: every column has the same number of cells. -/
def Uniform (t : Table) : Prop := ∀ c ∈ t.cols, c.cells.length = t.nrows

/-- Names of the columns selected by `select_dtypes(include=[np.number])`
(bool columns are not `np.number`). -/
def numericNames (t : Table) : List String :=
  (t.cols.filter (fun c => c.dtype == Dtype.num)).map Col.name

/-- Row `i` as a list of cells, one per column. -/
def row (t : Table) (i : Nat) : List Val :=
  t.cols.map (fun c => c.cells.getD i Val.nan)

/-- Keep/reorder rows by a list of row indices (row-wise take used for
`drop_duplicates` and `sort_values`). -/
def reindex (t : Table) (idxs : List Nat) : Table :=
  ⟨t.cols.map (fun c => ⟨c.name, c.dtype, idxs.map (fun i => c.cells.getD i Val.nan)⟩)⟩

end Table

/-! ## Column-level operations -/

/-- Indices of the rows `drop_duplicates(subset=['timestamp'], keep='first')`
keeps: row `i` survives iff no earlier row has the same timestamp value
(pandas treats two missing values as duplicates of each other, matching the
structural equality here). -/
def dedupIdxs (ts : List Val) : List Nat :=
  (List.range ts.length).filter
    (fun i => (List.range i).all (fun j => !(ts.getD j Val.nan == ts.getD i Val.nan)))

/-- Row order produced by `sort_values` on the given key column, missing
keys last.  (pandas' default sort is an unstable quicksort; the model uses a
stable insertion sort — every property stated below is insensitive to the
order of tied keys.) -/
def sortIdxs (ts : List Val) : List Nat :=
  List.insertionSort
    (fun i j => Val.leSort (ts.getD i Val.nan) (ts.getD j Val.nan))
    (List.range ts.length)

/-- Forward fill with carried value `last` (`fillna(method='ffill')`). -/
def ffillFrom : Val → List Val → List Val
  | _, [] => []
  | last, c :: cs =>
    if c.isNaN then last :: ffillFrom last cs else c :: ffillFrom c cs

/-- `fillna(method='ffill')`. -/
def ffill (cs : List Val) : List Val := ffillFrom Val.nan cs

/-- `fillna(method='bfill')`. -/
def bfill (cs : List Val) : List Val := (ffill cs.reverse).reverse

/-- `Series.diff()`: first entry missing, then consecutive differences. -/
def diffV (cs : List Val) : List Val :=
  Val.nan :: List.zipWith Val.sub cs.tail cs

/-- `Series.cumsum()` (`skipna=True`): missing entries stay missing and do
not contribute to the running sum. -/
def cumsumGo : Val → List Val → List Val
  | _, [] => []
  | acc, c :: cs =>
    if c.isNaN then Val.nan :: cumsumGo acc cs
    else (acc.add c) :: cumsumGo (acc.add c) cs

/-- `Series.cumsum()` with `skipna=True`. -/
def cumsum (cs : List Val) : List Val := cumsumGo (Val.rat 0) cs

/-- `Series.mean()` (`skipna=True`): sum of the non-missing cells over their
count (the empty quotient `0/0` is `nan`, as pandas returns `NaN`). -/
def meanV (cs : List Val) : Val :=
  let xs := cs.filter (fun c => !c.isNaN)
  (xs.foldl Val.add (Val.rat 0)).div (Val.rat xs.length)

/-- Kernel-reducible sum of a list of rationals. -/
def qsum : List ℚ → ℚ
  | [] => 0
  | x :: xs => qadd x (qsum xs)

/-- The rationals of a list, or `none` if some entry is `±inf`. -/
def ratsOnly? : List Val → Option (List ℚ)
  | [] => some []
  | .rat q :: cs => (ratsOnly? cs).map (fun rs => q :: rs)
  | _ :: _ => none

/-- Sample variance (`ddof=1`, `skipna=True`): `NaN` with fewer than two
non-missing observations (and, like pandas, `NaN` as soon as an infinite
value enters the mean-deviation sum). -/
def sampleVar (cs : List Val) : Val :=
  let xs := cs.filter (fun c => !c.isNaN)
  match ratsOnly? xs with
  | none => Val.nan
  | some rs =>
    if rs.length < 2 then Val.nan
    else
      let m : ℚ := qdiv (qsum rs) rs.length
      Val.rat (qdiv (qsum (rs.map (fun x => qmul (qsub x m) (qsub x m))))
        (qsub (rs.length : ℚ) 1))

/-- `Series.std()` = square root of the sample variance.  The square root of
a float is library code; it is abstracted as the parameter `sqrt`, exact at
the arguments the claims exercise (witnesses instantiate it with a function
agreeing with the true square root there). -/
def stdV (sqrt : ℚ → ℚ) (cs : List Val) : Val :=
  match sampleVar cs with
  | Val.rat v => Val.rat (sqrt v)
  | _ => Val.nan

/-- Trailing window of up to `w` samples ending at position `i`. -/
def windowAt (w : Nat) (cs : List Val) (i : Nat) : List Val :=
  (cs.take (i + 1)).drop (i + 1 - w)

/-- `Series.rolling(window=w, min_periods=minp).agg f`: at each position the
aggregate of the non-missing values of the trailing window, or `NaN` when
they number fewer than `minp`. -/
def rollingAgg (w minp : Nat) (f : List Val → Val) (cs : List Val) : List Val :=
  (List.range cs.length).map (fun i =>
    let win := (windowAt w cs i).filter (fun c => !c.isNaN)
    if minp ≤ win.length then f win else Val.nan)

/-- `Series.quantile(q)` with the default linear interpolation: with `n`
non-missing cells sorted ascending, the value at fractional position
`q*(n-1)`. -/
def quantileV (cells : List Val) (q : ℚ) : Val :=
  let xs := (cells.filter (fun c => !c.isNaN)).insertionSort
    (fun a b => Val.leSort a b)
  if xs.length = 0 then Val.nan
  else
    let m : Nat := xs.length - 1
    let pos : ℚ := qmul q (m : ℚ)
    let k : Nat := pos.floor.toNat
    let frac : ℚ := qsub pos (k : ℚ)
    let a := xs.getD k Val.nan
    if frac.num = 0 then a
    else a.add ((Val.rat frac).mul ((xs.getD (k + 1) Val.nan).sub a))

/-- The rational value `quantileV` computes on an all-rational column whose
sorted values are `rs` (with `rs.length = m + 1`); used to reason about the
quartiles. -/
def interpAt (rs : List ℚ) (q : ℚ) (m : Nat) : ℚ :=
  let pos : ℚ := qmul q (m : ℚ)
  let k : Nat := pos.floor.toNat
  let frac : ℚ := qsub pos (k : ℚ)
  if frac.num = 0 then rs.getD k 0
  else qadd (rs.getD k 0) (qmul frac (qsub (rs.getD (k + 1) 0) (rs.getD k 0)))

/-- `Series.clip(lower, upper)` on one cell: missing stays missing, a
missing bound does not clip on that side (pandas ignores `NaN` thresholds),
the lower bound is applied first. -/
def clipV (lo hi x : Val) : Val :=
  if x.isNaN then x
  else
    let x1 := if x.ltB lo then lo else x
    if x1.gtB hi then hi else x1

/-! ## `src/analytics/data_processor.py` — `BatteryDataProcessor` -/

def REQUIRED_COLUMNS : List String := ["timestamp", "voltage", "current", "temperature"]

/-- The report returned by `BatteryDataProcessor.validate_data`. -/
structure ValidationReport where
  has_required_columns : Bool
  has_valid_timestamps : Bool
  has_valid_ranges : Bool
  has_duplicates : Bool
  has_missing_values : Bool
deriving DecidableEq

/-- `data.duplicated().any()`: some row is fully identical to an earlier one. -/
def Table.duplicatedAny (t : Table) : Bool :=
  (List.range t.nrows).any (fun i =>
    (List.range i).any (fun j => t.row j == t.row i))

/-- `BatteryDataProcessor.validate_data` (`data_processor.py:41-80`). -/
def validate_data (data : Table) : ValidationReport :=
  { has_required_columns := REQUIRED_COLUMNS.all (fun n => data.hasCol n)
    has_valid_timestamps :=
      if data.hasCol "timestamp" then data.getDtype "timestamp" == Dtype.dt
      else true
    has_valid_ranges :=
      (if data.hasCol "voltage" then
        (data.getCells "voltage").all (fun v => v.geB (Val.rat 0))
      else true) &&
      (if data.hasCol "temperature" then
        (data.getCells "temperature").all (fun v =>
          v.geB (Val.rat (-50)) && v.leB (Val.rat 100))
      else true)
    has_duplicates := data.duplicatedAny
    has_missing_values := data.cols.any (fun c => c.cells.any Val.isNaN) }

/-- Stage 1 of `clean_data`: `drop_duplicates(subset=['timestamp'],
keep='first')`. -/
def cleanDedup (t : Table) : Table := t.reindex (dedupIdxs (t.getCells "timestamp"))

/-- Stage 2 of `clean_data`: `sort_values('timestamp')` (guarded on the
column's presence) followed by `reset_index(drop=True)` (a no-op here). -/
def cleanSort (t : Table) : Table :=
  if t.hasCol "timestamp" then t.reindex (sortIdxs (t.getCells "timestamp")) else t

/-- The per-column action of the fill stage: numeric columns are forward-
then backward-filled, others left alone. -/
def fillColF (c : Col) : Col :=
  if c.dtype == Dtype.num then ⟨c.name, c.dtype, bfill (ffill c.cells)⟩ else c

/-- Stage 3 of `clean_data`: forward- then backward-fill every numeric
column. -/
def cleanFill (t : Table) : Table := ⟨t.cols.map fillColF⟩

/-- One iteration of the outlier loop of `clean_data`: clip column `n` to
`[Q1 - 3*IQR, Q3 + 3*IQR]` of its current values. -/
def clipStep (t : Table) (n : String) : Table :=
  if t.hasCol n then
    let cells := t.getCells n
    let q1 := quantileV cells (mkRat 1 4)
    let q3 := quantileV cells (mkRat 3 4)
    let iqr := q3.sub q1
    let lo := q1.sub ((Val.rat 3).mul iqr)
    let hi := q3.add ((Val.rat 3).mul iqr)
    t.setCol n (t.getDtype n) (cells.map (clipV lo hi))
  else t

/-- Stage 4 of `clean_data`: the outlier loop over
`['voltage', 'current', 'temperature']`. -/
def cleanClip (t : Table) : Table :=
  ["voltage", "current", "temperature"].foldl clipStep t

/-- `BatteryDataProcessor.clean_data` (`data_processor.py:82-115`).
`drop_duplicates(subset=['timestamp'])` raises a `KeyError` when the
column is absent; afterwards the pipeline is dedup → sort → fill → clip. -/
def clean_data (data : Table) : Except String Table :=
  if data.hasCol "timestamp" then
    .ok (cleanClip (cleanFill (cleanSort (cleanDedup data))))
  else .error "KeyError: ['timestamp']"

/-- `df['timestamp'].diff().dt.total_seconds()`: the `.dt` accessor raises
unless the column has a datetime dtype; timestamps are epoch seconds, so a
timedelta's `total_seconds` is the plain difference. -/
def tsDiffSeconds (t : Table) : Except String (List Val) :=
  if t.getDtype "timestamp" == Dtype.dt then .ok (diffV (t.getCells "timestamp"))
  else .error "AttributeError: dt"

/-- First section of `calculate_derived_features`: compute `power` when
absent and both factors are present. -/
def cdfPower (df : Table) : Table :=
  if !df.hasCol "power" && df.hasCol "voltage" && df.hasCol "current" then
    df.setCol "power" Dtype.num
      (List.zipWith Val.mul (df.getCells "voltage") (df.getCells "current"))
  else df

/-- Second section of `calculate_derived_features`: sort by timestamp and
integrate power into `energy_delta` (kWh) and `cumulative_energy`. -/
def cdfEnergy (df : Table) : Except String Table :=
  if df.hasCol "power" && df.hasCol "timestamp" then do
    let df := df.reindex (sortIdxs (df.getCells "timestamp"))
    let secs ← tsDiffSeconds df
    let hours := secs.map (fun s => s.div (Val.rat 3600))
    let ed := (List.zipWith Val.mul (df.getCells "power") hours).map
      (fun x => x.div (Val.rat 1000))
    let df := df.setCol "energy_delta" Dtype.num ed
    pure (df.setCol "cumulative_energy" Dtype.num (cumsum ed))
  else pure df

/-- Third section of `calculate_derived_features`: `temp_delta` and
`temp_rate`.  The `df['timestamp']` read is unguarded in the source, so the
missing column raises a `KeyError`. -/
def cdfTempRate (df : Table) : Except String Table :=
  if df.hasCol "temperature" then
    let df := df.setCol "temp_delta" Dtype.num (diffV (df.getCells "temperature"))
    if !df.hasCol "timestamp" then throw "KeyError: 'timestamp'"
    else do
      let secs ← tsDiffSeconds df
      pure (df.setCol "temp_rate" Dtype.num
        (List.zipWith Val.div (df.getCells "temp_delta") secs))
  else pure df

/-- Fourth section of `calculate_derived_features`: rolling voltage
volatility (`window=10, min_periods=1`). -/
def cdfVoltStd (sqrt : ℚ → ℚ) (df : Table) : Table :=
  if df.hasCol "voltage" then
    df.setCol "voltage_rolling_std" Dtype.num
      (rollingAgg 10 1 (stdV sqrt) (df.getCells "voltage"))
  else df

/-- `BatteryDataProcessor.calculate_derived_features`
(`data_processor.py:145-177`): power, energy integration, temperature rate
of change, rolling voltage volatility, in source order. -/
def calculate_derived_features (sqrt : ℚ → ℚ) (data : Table) : Except String Table := do
  let df := cdfPower data
  let df ← cdfEnergy df
  let df ← cdfTempRate df
  pure (cdfVoltStd sqrt df)

/-! ## `src/analytics/battery_metrics.py` — `BatteryMetricsCalculator` -/

/-- `BatteryMetricsCalculator.assess_health_status`
(`battery_metrics.py:139-161`). -/
def assess_health_status (soh temperature : ℚ) : String :=
  let temp_normal := 15 ≤ temperature ∧ temperature ≤ 35
  if 95 ≤ soh ∧ temp_normal then "excellent"
  else if 85 ≤ soh ∧ temp_normal then "good"
  else if 70 ≤ soh then "fair"
  else if 50 ≤ soh then "poor"
  else "critical"

/-! ## `src/analytics/anomaly_detector.py` — `BatteryAnomalyDetector` -/

/-- Does the character list `p` occur at the head of `l`? -/
def listStartsWith : List Char → List Char → Bool
  | [], _ => true
  | _ :: _, [] => false
  | a :: as, b :: bs => a == b && listStartsWith as bs

/-- Python `sub in s` on strings. -/
def strContains (s sub : String) : Bool :=
  (List.range (s.data.length + 1)).any (fun i => listStartsWith sub.data (s.data.drop i))

/-- Python `s.endswith(suf)`. -/
def strEndsWith (s suf : String) : Bool :=
  listStartsWith suf.data.reverse s.data.reverse

/-- `df[names].any(axis=1)` (`skipna=True`): per-row disjunction of the
truthiness of the named columns' cells (false for no columns). -/
def anyAxis1 (t : Table) (names : List String) : List Val :=
  (List.range t.nrows).map (fun i =>
    Val.ofBool (names.any (fun n => ((t.getCells n).getD i Val.nan).truthy)))

/-- `df[names].sum(axis=1)` (`skipna=True`): per-row sum of the named
columns' cells, missing cells contributing 0. -/
def sumAxis1 (t : Table) (names : List String) : List Val :=
  (List.range t.nrows).map (fun i =>
    names.foldl (fun acc n =>
      let c := (t.getCells n).getD i Val.nan
      acc.add (if c.isNaN then Val.rat 0 else c)) (Val.rat 0))

/-- The body of the z-score loop of `detect_statistical_anomalies` for one
column: append `<col>_anomaly` (`z > threshold`) and `<col>_zscore`
(`|value − mean| / std`). -/
def statColStep (sqrt : ℚ → ℚ) (thr : ℚ) (df : Table) (col : String) : Table :=
  if df.hasCol col then
    let cells := df.getCells col
    let m := meanV cells
    let s := stdV sqrt cells
    let zs := cells.map (fun x => ((x.sub m).div s).abs)
    let df := df.setCol (col ++ "_anomaly") Dtype.boolDt
      (zs.map (fun z => Val.ofBool (z.gtB (Val.rat thr))))
    df.setCol (col ++ "_zscore") Dtype.num zs
  else df

/-- `BatteryAnomalyDetector.detect_statistical_anomalies`
(`anomaly_detector.py:30-65`).  `columns = none` selects all numeric
columns; `std_threshold` defaults to 3.0 at the call sites. -/
def detect_statistical_anomalies (sqrt : ℚ → ℚ) (columns : Option (List String))
    (std_threshold : ℚ) (data : Table) : Table :=
  let df := data
  let cols := columns.getD df.numericNames
  let df := cols.foldl (statColStep sqrt std_threshold) df
  let anomaly_cols := (cols.filter (fun c => df.hasCol (c ++ "_anomaly"))).map
    (fun c => c ++ "_anomaly")
  df.setCol "is_anomaly" Dtype.boolDt (anyAxis1 df anomaly_cols)

/-- One entry of the threshold loop of `detect_threshold_violations`:
append `<col>_violation` = value outside `[min_val, max_val]`. -/
def thresholdStep (df : Table) (e : String × ℚ × ℚ) : Table :=
  if df.hasCol e.1 then
    df.setCol (e.1 ++ "_violation") Dtype.boolDt
      ((df.getCells e.1).map (fun v =>
        Val.ofBool (v.ltB (Val.rat e.2.1) || v.gtB (Val.rat e.2.2))))
  else df

/-- `BatteryAnomalyDetector.detect_threshold_violations`
(`anomaly_detector.py:98-124`); the thresholds dict is an ordered list of
`(column, (min, max))` entries. -/
def detect_threshold_violations (thresholds : List (String × ℚ × ℚ))
    (data : Table) : Table :=
  let df := thresholds.foldl thresholdStep data
  let violation_cols := df.colNames.filter (fun n => strEndsWith n "_violation")
  df.setCol "has_violation" Dtype.boolDt (anyAxis1 df violation_cols)

/-- `BatteryAnomalyDetector.detect_sudden_changes`
(`anomaly_detector.py:126-152`): raises `ValueError` when the monitored
column is absent, otherwise appends `<col>_delta` and
`<col>_sudden_change` = `|delta| > change_threshold`. -/
def detect_sudden_changes (column : String) (change_threshold : ℚ)
    (data : Table) : Except String Table :=
  if data.hasCol column then
    let df := data.setCol (column ++ "_delta") Dtype.num (diffV (data.getCells column))
    .ok (df.setCol (column ++ "_sudden_change") Dtype.boolDt
      ((df.getCells (column ++ "_delta")).map
        (fun d => Val.ofBool (d.abs.gtB (Val.rat change_threshold)))))
  else .error ("Column '" ++ column ++ "' not found in data")

/-- `BatteryAnomalyDetector.detect_pattern_deviations`
(`anomaly_detector.py:154-184`): rolling mean/std over `window` (default
`min_periods`, i.e. a full window) and flag
`|value − rolling_mean| > 3 * rolling_std`. -/
def detect_pattern_deviations (sqrt : ℚ → ℚ) (column : String) (window : Nat)
    (data : Table) : Except String Table :=
  if data.hasCol column then
    let df := data.setCol (column ++ "_rolling_mean") Dtype.num
      (rollingAgg window window meanV (data.getCells column))
    let df := df.setCol (column ++ "_rolling_std") Dtype.num
      (rollingAgg window window (stdV sqrt) (df.getCells column))
    let dev := List.zipWith (fun v m => (v.sub m).abs)
      (df.getCells column) (df.getCells (column ++ "_rolling_mean"))
    .ok (df.setCol (column ++ "_pattern_deviation") Dtype.boolDt
      (List.zipWith (fun d s => Val.ofBool (d.gtB ((Val.rat 3).mul s)))
        dev (df.getCells (column ++ "_rolling_std"))))
  else .error ("Column '" ++ column ++ "' not found in data")

/-- Default operational thresholds of `comprehensive_anomaly_detection`. -/
def defaultThresholds : List (String × ℚ × ℚ) :=
  [("voltage", 40, 60), ("current", -200, 200), ("temperature", 0, 50)]

/-- The sudden-change loop body of `comprehensive_anomaly_detection`
(guarded on presence, so the error branch of `detect_sudden_changes` is
unreachable). -/
def suddenStep (df : Table) (col : String) : Table :=
  if df.hasCol col then
    match detect_sudden_changes col 10 df with
    | .ok d => d
    | .error _ => df
  else df

/-- The pattern-deviation loop body of `comprehensive_anomaly_detection`. -/
def patternStep (sqrt : ℚ → ℚ) (df : Table) (col : String) : Table :=
  if df.hasCol col then
    match detect_pattern_deviations sqrt col 20 df with
    | .ok d => d
    | .error _ => df
  else df

/-- `BatteryAnomalyDetector.comprehensive_anomaly_detection`
(`anomaly_detector.py:186-239`).  The isolation-forest scores come from
`sklearn` (library code outside this repository, stateful fit-once model);
they are abstracted as the parameter `predict`, which receives the frame
and the selected feature columns and returns the per-row predictions
(-1 = anomaly, 1 = normal) — every property proved below holds for all
`predict`. -/
def comprehensive_anomaly_detection (sqrt : ℚ → ℚ)
    (predict : Table → List String → List Val)
    (operational_thresholds : Option (List (String × ℚ × ℚ)))
    (data : Table) : Table :=
  let df := data
  let df := detect_statistical_anomalies sqrt none 3 df
  let numeric_cols := df.numericNames
  let df :=
    if numeric_cols.isEmpty then df
    else
      let df := df.setCol "isolation_forest_anomaly" Dtype.num (predict df numeric_cols)
      df.setCol "isolation_forest_anomaly" Dtype.boolDt
        ((df.getCells "isolation_forest_anomaly").map
          (fun v => Val.ofBool (v == Val.rat (-1))))
  let thresholds := operational_thresholds.getD defaultThresholds
  let df := detect_threshold_violations thresholds df
  let df := ["temperature", "voltage"].foldl suddenStep df
  let df := ["voltage", "current"].foldl (patternStep sqrt) df
  let anomaly_indicators := df.colNames.filter (fun n =>
    strContains n "anomaly" || strContains n "violation" ||
    strContains n "deviation" || strContains n "change")
  if anomaly_indicators.isEmpty then df
  else
    df.setCol "anomaly_score" Dtype.num
      ((sumAxis1 df anomaly_indicators).map
        (fun s => s.div (Val.rat anomaly_indicators.length)))

/-! ## Definitions taken from the specification's words (for refinement
claims) -/

/-- The health-status decision table exactly as the specification states it
(section 4.4, priority order 1-5). -/
def health_status_spec (soh temperature : ℚ) : String :=
  if 95 ≤ soh ∧ (15 ≤ temperature ∧ temperature ≤ 35) then "excellent"
  else if 85 ≤ soh ∧ (15 ≤ temperature ∧ temperature ≤ 35) then "good"
  else if 70 ≤ soh then "fair"
  else if 50 ≤ soh then "poor"
  else "critical"

/-! ## Predicates used by the claims -/

/-- `u` extends `t` additively: it contains every column of `t`, unchanged
and in place, and only appends new columns on the right. -/
def Additive (t u : Table) : Prop := ∃ ex : List Col, u.cols = t.cols ++ ex

/-- Strictly increasing cell list (pairwise, under the IEEE order). -/
def StrictIncr (cs : List Val) : Prop :=
  List.Pairwise (fun a b => a.ltB b = true) cs

/-- Every cell is a finite rational. -/
def AllRat (cs : List Val) : Prop := ∀ c ∈ cs, ∃ q : ℚ, c = Val.rat q

/-- The flag/score column names `detect_statistical_anomalies` writes when
run over the given column list. -/
def statGenNames : List String → List String
  | [] => ["is_anomaly"]
  | c :: cs => (c ++ "_anomaly") :: (c ++ "_zscore") :: statGenNames cs

/-- The column names `detect_threshold_violations` writes. -/
def thresholdGenNames (thresholds : List (String × ℚ × ℚ)) : List String :=
  thresholds.map (fun e => e.1 ++ "_violation") ++ ["has_violation"]

/-- The column names `detect_sudden_changes` writes. -/
def suddenGenNames (column : String) : List String :=
  [column ++ "_delta", column ++ "_sudden_change"]

/-- The column names `detect_pattern_deviations` writes. -/
def patternGenNames (column : String) : List String :=
  [column ++ "_rolling_mean", column ++ "_rolling_std", column ++ "_pattern_deviation"]

/-- Every column name `comprehensive_anomaly_detection` writes on the given
input (generated from the input's numeric columns and the threshold keys). -/
def comprehensiveGenNames (thresholds : List (String × ℚ × ℚ)) (t : Table) :
    List String :=
  statGenNames t.numericNames ++ ["isolation_forest_anomaly"] ++
    thresholdGenNames thresholds ++
    suddenGenNames "temperature" ++ suddenGenNames "voltage" ++
    patternGenNames "voltage" ++ patternGenNames "current" ++ ["anomaly_score"]

/-! ## Concrete tables used by witnesses and counterexamples -/

/-- Two rows sharing a timestamp; the voltage value of the first is missing.
`drop_duplicates` keeps the first row, so the fill step has nothing left to
fill from. -/
def exTableDupNaN : Table := ⟨[
  ⟨"timestamp", Dtype.dt, [Val.rat 1, Val.rat 1]⟩,
  ⟨"voltage", Dtype.num, [Val.nan, Val.rat 5]⟩]⟩

/-- Five distinct timestamps; voltage `[0,0,0,0,1000]` has two distinct
values, quartiles `Q1 = Q3 = 0`, so the clip interval degenerates to
`[0,0]`. -/
def exTableFewDistinct : Table := ⟨[
  ⟨"timestamp", Dtype.dt, [Val.rat 1, Val.rat 2, Val.rat 3, Val.rat 4, Val.rat 5]⟩,
  ⟨"voltage", Dtype.num, [Val.rat 0, Val.rat 0, Val.rat 0, Val.rat 0, Val.rat 1000]⟩]⟩

/-- Four duplicate timestamps then a fresh one: deduplication changes the
voltage quartiles from those of the original column. -/
def exTableDupQuartiles : Table := ⟨[
  ⟨"timestamp", Dtype.dt, [Val.rat 1, Val.rat 1, Val.rat 1, Val.rat 1, Val.rat 2]⟩,
  ⟨"voltage", Dtype.num, [Val.rat 0, Val.rat 0, Val.rat 0, Val.rat 0, Val.rat 1000]⟩]⟩

/-- Two rows with the same timestamp and a temperature jump: the elapsed
time between them is zero. -/
def exTableZeroElapsed : Table := ⟨[
  ⟨"timestamp", Dtype.dt, [Val.rat 0, Val.rat 0]⟩,
  ⟨"temperature", Dtype.num, [Val.rat 0, Val.rat 5]⟩]⟩

/-- A table whose only column is numeric and named `is_anomaly`: the
statistical pass overwrites it. -/
def exTableIsAnomaly : Table := ⟨[⟨"is_anomaly", Dtype.num, [Val.rat 1, Val.rat 1]⟩]⟩

/-- A well-formed three-row telemetry table (distinct timestamps, one
missing voltage cell, no generated-name collisions). -/
def exTableGood : Table := ⟨[
  ⟨"timestamp", Dtype.dt, [Val.rat 60, Val.rat 0, Val.rat 120]⟩,
  ⟨"voltage", Dtype.num, [Val.nan, Val.rat 48, Val.rat 52]⟩,
  ⟨"temperature", Dtype.num, [Val.rat 25, Val.rat 20, Val.rat 45]⟩]⟩

/-- A table with `temperature` but no `timestamp` column. -/
def exTableNoTs : Table := ⟨[⟨"temperature", Dtype.num, [Val.rat 1, Val.rat 2]⟩]⟩

/-- A mixed table: the voltage column is constant (standard deviation 0)
while the temperature column varies. -/
def exTableMixed : Table := ⟨[
  ⟨"timestamp", Dtype.dt, [Val.rat 0, Val.rat 60, Val.rat 120]⟩,
  ⟨"voltage", Dtype.num, [Val.rat 48, Val.rat 48, Val.rat 48]⟩,
  ⟨"temperature", Dtype.num, [Val.rat 10, Val.rat 20, Val.rat 90]⟩]⟩

/-- A table whose voltage column is entirely missing. -/
def exTableAllNaNVolt : Table := ⟨[
  ⟨"timestamp", Dtype.dt, [Val.rat 1, Val.rat 2]⟩,
  ⟨"voltage", Dtype.num, [Val.nan, Val.nan]⟩]⟩

/-! # Theorems

First the bridge lemmas relating the kernel-reducible rational operations
to Mathlib's field structure on `ℚ`, then general lemmas about the table
model, then one theorem per claim (with witnesses and counterexamples). -/

theorem den_cast_ne {a : ℚ} : ((a.den : ℚ)) ≠ 0 := by
  exact_mod_cast a.den_nz

theorem mul_den_eq_num (a : ℚ) : a * (a.den : ℚ) = (a.num : ℚ) :=
  (eq_div_iff den_cast_ne).mp (Rat.num_div_den a).symm

@[simp] theorem qadd_eq (a b : ℚ) : qadd a b = a + b := by
  rw [qadd, Rat.divInt_eq_div]
  push_cast
  rw [div_eq_iff (mul_ne_zero den_cast_ne den_cast_ne)]
  rw [← mul_den_eq_num a, ← mul_den_eq_num b]
  ring

@[simp] theorem qsub_eq (a b : ℚ) : qsub a b = a - b := by
  rw [qsub, Rat.divInt_eq_div]
  push_cast
  rw [div_eq_iff (mul_ne_zero den_cast_ne den_cast_ne)]
  rw [← mul_den_eq_num a, ← mul_den_eq_num b]
  ring

@[simp] theorem qmul_eq (a b : ℚ) : qmul a b = a * b := by
  rw [qmul, Rat.divInt_eq_div]
  push_cast
  rw [div_eq_iff (mul_ne_zero den_cast_ne den_cast_ne)]
  rw [← mul_den_eq_num a, ← mul_den_eq_num b]
  ring

@[simp] theorem qneg_eq (a : ℚ) : qneg a = -a := by
  rw [qneg, Rat.divInt_eq_div]
  push_cast
  rw [neg_div, Rat.num_div_den]

@[simp] theorem qdiv_eq (a b : ℚ) : qdiv a b = a / b := by
  rcases eq_or_ne b 0 with rfl | hb
  · simp [qdiv]
  · have hbn : (b.num : ℚ) ≠ 0 := by
      exact_mod_cast Rat.num_ne_zero.mpr hb
    rw [qdiv, Rat.divInt_eq_div]
    push_cast
    rw [div_eq_div_iff (mul_ne_zero den_cast_ne hbn) hb]
    rw [← mul_den_eq_num a, ← mul_den_eq_num b]
    ring

@[simp] theorem qabs_eq (a : ℚ) : qabs a = |a| := by
  rw [qabs]
  rcases lt_or_le a.num 0 with h | h
  · have ha : a < 0 := Rat.num_neg.mp h
    rw [if_pos h, qneg_eq, abs_of_neg ha]
  · have ha : 0 ≤ a := Rat.num_nonneg.mp h
    rw [if_neg (not_lt.mpr h), abs_of_nonneg ha]

@[simp] theorem qsum_eq (xs : List ℚ) : qsum xs = xs.sum := by
  induction xs with
  | nil => rfl
  | cons x xs ih => rw [qsum, qadd_eq, ih, List.sum_cons]

theorem Val.leSort_trans (a b c : Val) (hab : Val.leSort a b = true)
    (hbc : Val.leSort b c = true) : Val.leSort a c = true := by
  cases a <;> cases b <;> cases c <;> simp_all [Val.leSort]
  exact le_trans hab hbc

theorem Val.leSort_total (a b : Val) : (Val.leSort a b || Val.leSort b a) = true := by
  cases a <;> cases b <;> simp [Val.leSort]
  exact le_total _ _

/-! ## Basic table lemmas -/

/-- `find?` at a head the predicate rejects (explicit arguments, to pin the
predicate during rewriting). -/
theorem find?_cons_false {α : Type} (p : α → Bool) (a : α) (l : List α)
    (h : p a = false) : List.find? p (a :: l) = List.find? p l := by
  rw [List.find?_cons, h]

/-- `find?` at a head the predicate accepts. -/
theorem find?_cons_true {α : Type} (p : α → Bool) (a : α) (l : List α)
    (h : p a = true) : List.find? p (a :: l) = some a := by
  rw [List.find?_cons, h]

/-- List-level core of the lookup lemmas: `find?` over the replace-map of
`setCol`. -/
theorem find?_replace_ne (l : List Col) {m n : String} (h : m ≠ n) (d : Dtype)
    (cs : List Val) :
    (l.map (fun c => if c.name = n then ⟨n, d, cs⟩ else c)).find?
        (fun c => c.name == m) =
      l.find? (fun c => c.name == m) := by
  induction l with
  | nil => rfl
  | cons a l ih =>
    rw [List.map_cons]
    by_cases ha : a.name = n
    · rw [if_pos ha]
      rw [find?_cons_false (fun c => c.name == m) (⟨n, d, cs⟩ : Col) _
        (by simpa using Ne.symm h)]
      rw [find?_cons_false (fun c => c.name == m) a _
        (by show (a.name == m) = false; rw [ha]; simpa using Ne.symm h)]
      exact ih
    · rw [if_neg ha]
      by_cases ham : a.name = m
      · rw [find?_cons_true (fun c => c.name == m) a _ (by simpa using ham),
          find?_cons_true (fun c => c.name == m) a _ (by simpa using ham)]
      · rw [find?_cons_false (fun c => c.name == m) a _ (by simpa using ham),
          find?_cons_false (fun c => c.name == m) a _ (by simpa using ham)]
        exact ih

theorem find?_replace_self (l : List Col) (n : String) (d : Dtype) (cs : List Val)
    (hl : (l.find? (fun c => c.name == n)).isSome) :
    (l.map (fun c => if c.name = n then ⟨n, d, cs⟩ else c)).find?
        (fun c => c.name == n) = some ⟨n, d, cs⟩ := by
  induction l with
  | nil => simp at hl
  | cons a l ih =>
    rw [List.map_cons]
    by_cases ha : a.name = n
    · rw [if_pos ha]
      rw [find?_cons_true (fun c => c.name == n) (⟨n, d, cs⟩ : Col) _ (by simp)]
    · rw [if_neg ha]
      rw [find?_cons_false (fun c => c.name == n) a _ (by simpa using ha)]
      apply ih
      rw [find?_cons_false (fun c => c.name == n) a _ (by simpa using ha)] at hl
      exact hl

namespace Table

theorem hasCol_eq_isSome (t : Table) (n : String) :
    t.hasCol n = (t.getCol? n).isSome := by
  rw [hasCol, colNames, getCol?]
  induction t.cols with
  | nil => rfl
  | cons a l ih =>
    rw [List.map_cons]
    by_cases ha : a.name = n
    · rw [find?_cons_true (fun c => c.name == n) a _ (by simpa using ha)]
      simp [List.contains_cons, ha]
    · rw [find?_cons_false (fun c => c.name == n) a _ (by simpa using ha)]
      rw [List.contains_cons]
      rw [show (n == a.name) = false by simpa using Ne.symm ha]
      simpa using ih

theorem hasCol_iff_getCol? (t : Table) (n : String) :
    t.hasCol n = true ↔ (t.getCol? n).isSome := by
  rw [hasCol_eq_isSome]

theorem getCol?_eq_none_of_not_hasCol {t : Table} {n : String}
    (h : t.hasCol n = false) : t.getCol? n = none := by
  rw [hasCol_eq_isSome] at h
  exact Option.not_isSome_iff_eq_none.mp (by simp [h])

theorem colNames_setCol (t : Table) (n : String) (d : Dtype) (cs : List Val) :
    (t.setCol n d cs).colNames = if t.hasCol n then t.colNames else t.colNames ++ [n] := by
  rw [setCol]
  split
  · show (t.cols.map _).map Col.name = t.cols.map Col.name
    rw [List.map_map]
    congr 1
    funext c
    by_cases h : c.name = n <;> simp [h]
  · show (t.cols ++ _).map Col.name = t.cols.map Col.name ++ [n]
    rw [List.map_append]
    rfl

theorem hasCol_setCol_ne (t : Table) {m n : String} (h : m ≠ n) (d : Dtype)
    (cs : List Val) : (t.setCol n d cs).hasCol m = t.hasCol m := by
  rw [hasCol, colNames_setCol]
  split
  · rfl
  · rw [hasCol]
    simp [List.contains_eq_any_beq, List.any_append, h]

theorem hasCol_setCol_self (t : Table) (n : String) (d : Dtype) (cs : List Val) :
    (t.setCol n d cs).hasCol n = true := by
  rw [hasCol, colNames_setCol]
  split
  · assumption
  · simp [List.contains_eq_any_beq, List.any_append]

theorem getCol?_setCol_self (t : Table) (n : String) (d : Dtype) (cs : List Val) :
    (t.setCol n d cs).getCol? n = some ⟨n, d, cs⟩ := by
  rw [setCol]
  split
  · next hhas =>
    rw [getCol?]
    exact find?_replace_self _ _ _ _ ((hasCol_iff_getCol? t n).mp hhas)
  · next hhas =>
    rw [getCol?]
    show (t.cols ++ _).find? _ = _
    rw [List.find?_append]
    rw [show t.cols.find? (fun c => c.name == n) = none from
      getCol?_eq_none_of_not_hasCol (by simpa using hhas)]
    rw [Option.none_or]
    rw [find?_cons_true (fun c => c.name == n) (⟨n, d, cs⟩ : Col) _ (by simp)]

theorem getCol?_setCol_ne (t : Table) {m n : String} (h : m ≠ n) (d : Dtype)
    (cs : List Val) : (t.setCol n d cs).getCol? m = t.getCol? m := by
  rw [setCol]
  split
  · rw [getCol?]
    exact find?_replace_ne _ h _ _
  · rw [getCol?]
    show (t.cols ++ _).find? _ = _
    rw [List.find?_append]
    rw [find?_cons_false (fun c => c.name == m) (⟨n, d, cs⟩ : Col) _
      (by simpa using Ne.symm h)]
    rw [List.find?_nil, Option.or_none]
    rfl

theorem getCells_setCol_self (t : Table) (n : String) (d : Dtype) (cs : List Val) :
    (t.setCol n d cs).getCells n = cs := by
  rw [getCells, getCol?_setCol_self]
  rfl

theorem getCells_setCol_ne (t : Table) {m n : String} (h : m ≠ n) (d : Dtype)
    (cs : List Val) : (t.setCol n d cs).getCells m = t.getCells m := by
  rw [getCells, getCol?_setCol_ne t h]
  rfl

theorem getDtype_setCol_ne (t : Table) {m n : String} (h : m ≠ n) (d : Dtype)
    (cs : List Val) : (t.setCol n d cs).getDtype m = t.getDtype m := by
  rw [getDtype, getCol?_setCol_ne t h]
  rfl

theorem getCol?_reindex (t : Table) (idxs : List Nat) (n : String) :
    (t.reindex idxs).getCol? n =
      (t.getCol? n).map
        (fun c => ⟨c.name, c.dtype, idxs.map (fun i => c.cells.getD i Val.nan)⟩) := by
  rw [reindex, getCol?, getCol?]
  show (t.cols.map _).find? _ = _
  rw [List.find?_map]
  rfl

theorem hasCol_reindex (t : Table) (idxs : List Nat) (n : String) :
    (t.reindex idxs).hasCol n = t.hasCol n := by
  rw [hasCol_eq_isSome, hasCol_eq_isSome, getCol?_reindex]
  cases t.getCol? n <;> rfl

theorem getDtype_reindex (t : Table) (idxs : List Nat) (n : String) :
    (t.reindex idxs).getDtype n = t.getDtype n := by
  rw [getDtype, getDtype, getCol?_reindex]
  cases t.getCol? n <;> rfl

theorem getCells_reindex (t : Table) (idxs : List Nat) (n : String) :
    (t.reindex idxs).getCells n =
      idxs.map (fun i => (t.getCells n).getD i Val.nan) ∨
      ((t.reindex idxs).getCells n = [] ∧ t.getCells n = []) := by
  rw [getCells, getCells, getCol?_reindex]
  cases t.getCol? n
  · exact Or.inr ⟨rfl, rfl⟩
  · exact Or.inl rfl

end Table

theorem hasCol_cdfPower (t : Table) {m : String} (hm : m ≠ "power") :
    (cdfPower t).hasCol m = t.hasCol m := by
  rw [cdfPower]
  split
  · rw [Table.hasCol_setCol_ne t hm]
  · rfl

theorem cdfEnergy_skip (t : Table) (h : t.hasCol "timestamp" = false) :
    cdfEnergy t = Except.ok t := by
  rw [cdfEnergy, h, Bool.and_false]
  rfl

theorem cdfTempRate_error (t : Table) (htemp : t.hasCol "temperature" = true)
    (hts : t.hasCol "timestamp" = false) :
    cdfTempRate t = Except.error "KeyError: 'timestamp'" := by
  rw [cdfTempRate, htemp, if_pos rfl]
  have h1 : (t.setCol "temp_delta" Dtype.num
      (diffV (t.getCells "temperature"))).hasCol "timestamp" = false := by
    rw [Table.hasCol_setCol_ne t (by decide)]
    exact hts
  simp only [h1]
  rfl

/-! ## Claim C4 — the health-status decision table -/

/-- Claim C4: `assess_health_status` realizes exactly the specification's
priority-ordered decision table (`health_status_spec`), and in particular
maps `(96,25)`, `(90,25)`, `(75,25)`, `(45,25)` to `"excellent"`, `"good"`,
`"fair"`, `"critical"`. -/
theorem claim_C4 :
    (∀ soh temperature : ℚ,
      assess_health_status soh temperature = health_status_spec soh temperature) ∧
    assess_health_status 96 25 = "excellent" ∧
    assess_health_status 90 25 = "good" ∧
    assess_health_status 75 25 = "fair" ∧
    assess_health_status 45 25 = "critical" := by
  refine ⟨fun soh temperature => rfl, ?_, ?_, ?_, ?_⟩ <;> decide

/-! ## Claim C8 — `has_valid_timestamps` -/

/-- Claim C8: for a table with a timestamp column, the `has_valid_timestamps`
field of the `validate_data` report is true exactly when the timestamp
column carries a (well-ordered) datetime dtype — the meaning the claim
itself gives to "every value is parseable as a date-time". -/
theorem claim_C8 (t : Table) (h : t.hasCol "timestamp" = true) :
    (validate_data t).has_valid_timestamps = true ↔
      t.getDtype "timestamp" = Dtype.dt := by
  show (if t.hasCol "timestamp" then t.getDtype "timestamp" == Dtype.dt else true) = true ↔ _
  rw [h, if_pos rfl]
  exact beq_iff_eq

/-- Witness for C8 at a concrete table. -/
theorem claim_C8_witness :
    exTableGood.hasCol "timestamp" = true ∧
    ((validate_data exTableGood).has_valid_timestamps = true ↔
      exTableGood.getDtype "timestamp" = Dtype.dt) :=
  ⟨by decide, claim_C8 exTableGood (by decide)⟩

/-! ## Claim C9 — temperature rate requires a timestamp column -/

/-- Claim C9: on any table having a `temperature` column but no `timestamp`
column, `calculate_derived_features` raises (the temperature-rate section
reads `df['timestamp']` unguarded), even though the specification
conditions the feature only on `temperature`. -/
theorem claim_C9 (sqrt : ℚ → ℚ) (t : Table)
    (htemp : t.hasCol "temperature" = true)
    (hts : t.hasCol "timestamp" = false) :
    calculate_derived_features sqrt t = Except.error "KeyError: 'timestamp'" := by
  rw [calculate_derived_features]
  rw [cdfEnergy_skip (cdfPower t) (by rw [hasCol_cdfPower t (by decide)]; exact hts)]
  show (cdfTempRate (cdfPower t) >>= fun df => pure (cdfVoltStd sqrt df)) = _
  rw [cdfTempRate_error _ (by rw [hasCol_cdfPower t (by decide)]; exact htemp)
      (by rw [hasCol_cdfPower t (by decide)]; exact hts)]
  rfl

/-- Witness for C9 at a concrete table. -/
theorem claim_C9_witness :
    exTableNoTs.hasCol "temperature" = true ∧
    exTableNoTs.hasCol "timestamp" = false ∧
    calculate_derived_features id exTableNoTs = Except.error "KeyError: 'timestamp'" :=
  ⟨by decide, by decide, claim_C9 id exTableNoTs (by decide) (by decide)⟩

/-! ## Claim C5 — sudden-change detection -/

theorem zipWith_get?_some {α β γ : Type} (f : α → β → γ) {l1 : List α}
    {l2 : List β} {i : Nat} {a : α} {b : β} (h1 : l1.get? i = some a)
    (h2 : l2.get? i = some b) :
    (List.zipWith f l1 l2).get? i = some (f a b) := by
  induction l1 generalizing l2 i with
  | nil => simp at h1
  | cons x l1 ih =>
    cases l2 with
    | nil => simp at h2
    | cons y l2 =>
      cases i with
      | zero =>
        rw [List.get?_cons_zero] at h1 h2
        cases h1
        cases h2
        rfl
      | succ i =>
        rw [List.get?_cons_succ] at h1 h2
        rw [List.zipWith_cons_cons, List.get?_cons_succ]
        exact ih h1 h2

theorem get?_tail {α : Type} (l : List α) (i : Nat) :
    l.tail.get? i = l.get? (i + 1) := by
  cases l with
  | nil => cases i <;> rfl
  | cons a l => rw [List.tail_cons, List.get?_cons_succ]

theorem string_append_ne_of_ne {a b : String} (s : String) (h : a ≠ b) :
    s ++ a ≠ s ++ b := by
  intro heq
  apply h
  have hd := congrArg String.data heq
  rw [String.data_append, String.data_append] at hd
  have h2 := List.append_cancel_left hd
  cases a
  cases b
  exact congrArg String.mk h2

/-- The successful branch of `detect_sudden_changes`, with the flag cells
computed. -/
theorem sudden_ok_cells (column : String) (thr : ℚ) (t : Table)
    (h : t.hasCol column = true) :
    ∃ u, detect_sudden_changes column thr t = Except.ok u ∧
      u.getCells (column ++ "_sudden_change") =
        (diffV (t.getCells column)).map
          (fun d => Val.ofBool (d.abs.gtB (Val.rat thr))) := by
  refine ⟨_, by rw [detect_sudden_changes, h]; rfl, ?_⟩
  rw [Table.getCells_setCol_self, Table.getCells_setCol_self]

/-- Claim C5: `detect_sudden_changes` rejects exactly the tables lacking the
monitored column, with an error naming it; when the column is present it
returns a table whose `<column>_sudden_change` flag at each row `i ≥ 1` with
finite values is `|value[i] − value[i−1]| > change_threshold`. -/
theorem claim_C5 (column : String) (thr : ℚ) (t : Table) :
    (t.hasCol column = false →
      detect_sudden_changes column thr t =
        Except.error ("Column '" ++ column ++ "' not found in data")) ∧
    (t.hasCol column = true →
      ∃ u, detect_sudden_changes column thr t = Except.ok u ∧
        ∀ i a b, (t.getCells column).get? i = some (Val.rat a) →
          (t.getCells column).get? (i + 1) = some (Val.rat b) →
          (u.getCells (column ++ "_sudden_change")).get? (i + 1) =
            some (Val.ofBool (decide (thr < |b - a|)))) := by
  constructor
  · intro h
    rw [detect_sudden_changes, h]
    rfl
  · intro h
    obtain ⟨u, hu, hcells⟩ := sudden_ok_cells column thr t h
    refine ⟨u, hu, fun i a b ha hb => ?_⟩
    rw [hcells, List.get?_map, diffV, List.get?_cons_succ,
      zipWith_get?_some Val.sub (by rw [get?_tail]; exact hb) ha]
    show some (Val.ofBool (((Val.rat b).sub (Val.rat a)).abs.gtB (Val.rat thr))) = _
    have hsub : (Val.rat b).sub (Val.rat a) = Val.rat (b - a) := by
      show Val.rat (qadd b (qneg a)) = _
      rw [qneg_eq, qadd_eq, ← sub_eq_add_neg]
    rw [hsub]
    show some (Val.ofBool (decide (thr < qabs (b - a)))) = _
    rw [qabs_eq]

/-- Witness for C5: the missing-column branch at a concrete table and the
flag value at a concrete jump. -/
theorem claim_C5_witness :
    exTableNoTs.hasCol "voltage" = false ∧
    detect_sudden_changes "voltage" 10 exTableNoTs =
      Except.error ("Column '" ++ "voltage" ++ "' not found in data") ∧
    exTableGood.hasCol "temperature" = true ∧
    ∃ u, detect_sudden_changes "temperature" 10 exTableGood = Except.ok u ∧
      ∀ i a b, (exTableGood.getCells "temperature").get? i = some (Val.rat a) →
        (exTableGood.getCells "temperature").get? (i + 1) = some (Val.rat b) →
        (u.getCells ("temperature" ++ "_sudden_change")).get? (i + 1) =
          some (Val.ofBool (decide ((10 : ℚ) < |b - a|))) :=
  ⟨by decide, (claim_C5 "voltage" 10 exTableNoTs).1 (by decide),
    by decide, (claim_C5 "temperature" 10 exTableGood).2 (by decide)⟩

/-! ## Claim C7 — temperature delta and rate -/

theorem getDtype_cdfPower (t : Table) {m : String} (hm : m ≠ "power") :
    (cdfPower t).getDtype m = t.getDtype m := by
  rw [cdfPower]
  split
  · rw [Table.getDtype_setCol_ne t hm]
  · rfl

theorem cdfVoltStd_getCells_ne (sqrt : ℚ → ℚ) (df : Table) (n : String)
    (hn : n ≠ "voltage_rolling_std") :
    (cdfVoltStd sqrt df).getCells n = df.getCells n := by
  rw [cdfVoltStd]
  split
  · rw [Table.getCells_setCol_ne df hn]
  · rfl

theorem Val.nan_div (e : Val) : Val.nan.div e = Val.nan := by
  cases e <;> rfl

theorem Val.rat_div_zero (a : ℚ) :
    (Val.rat a).div (Val.rat 0) =
      if a = 0 then Val.nan else if 0 < a then Val.inf else Val.ninf := by
  show (if (0 : ℚ).num = 0 then
      (if a.num = 0 then Val.nan else if 0 < a.num then Val.inf else Val.ninf)
    else Val.rat (qdiv a 0)) = _
  rw [if_pos (show (0 : ℚ).num = 0 from rfl)]
  by_cases h0 : a = 0
  · rw [if_pos (by rwa [Rat.num_eq_zero]), if_pos h0]
  · rw [if_neg (by rwa [Rat.num_eq_zero]), if_neg h0]
    by_cases hp : 0 < a
    · rw [if_pos (by rwa [Rat.num_pos]), if_pos hp]
    · rw [if_neg (by rwa [Rat.num_pos]), if_neg hp]

/-- `cdfEnergy` succeeds on a datetime-typed timestamp column and leaves
presence and dtype of unrelated columns unchanged. -/
theorem cdfEnergy_props (df : Table) (hdt : df.getDtype "timestamp" = Dtype.dt) :
    ∃ u, cdfEnergy df = Except.ok u ∧
      ∀ n, n ≠ "energy_delta" → n ≠ "cumulative_energy" →
        (u.hasCol n = df.hasCol n ∧ u.getDtype n = df.getDtype n ∧
          (u.getCells n = df.getCells n ∨
            ∃ idxs : List Nat,
              u.getCells n = idxs.map (fun i => (df.getCells n).getD i Val.nan))) := by
  rw [cdfEnergy]
  cases hcond : (df.hasCol "power" && df.hasCol "timestamp")
  · exact ⟨df, rfl, fun n _ _ => ⟨rfl, rfl, Or.inl rfl⟩⟩
  · have hdt2 : (df.reindex (sortIdxs (df.getCells "timestamp"))).getDtype
        "timestamp" = Dtype.dt := by
      rw [Table.getDtype_reindex]
      exact hdt
    have hts : tsDiffSeconds (df.reindex (sortIdxs (df.getCells "timestamp"))) =
        Except.ok (diffV ((df.reindex (sortIdxs (df.getCells "timestamp"))).getCells
          "timestamp")) := by
      rw [tsDiffSeconds, hdt2]
      rfl
    simp only [hts]
    refine ⟨_, rfl, fun n h1 h2 => ?_⟩
    rw [Table.hasCol_setCol_ne _ h2, Table.hasCol_setCol_ne _ h1,
      Table.hasCol_reindex]
    rw [Table.getDtype_setCol_ne _ h2, Table.getDtype_setCol_ne _ h1,
      Table.getDtype_reindex]
    refine ⟨rfl, rfl, ?_⟩
    rw [Table.getCells_setCol_ne _ h2, Table.getCells_setCol_ne _ h1]
    rcases Table.getCells_reindex df (sortIdxs (df.getCells "timestamp")) n with
      h | ⟨h, h0⟩
    · exact Or.inr ⟨_, h⟩
    · rw [h, h0]
      exact Or.inl rfl

/-- `cdfTempRate` on a table with `temperature` and a datetime `timestamp`:
the exact cells of `temp_delta` and `temp_rate`. -/
theorem cdfTempRate_ok (df : Table) (h1 : df.hasCol "temperature" = true)
    (h2 : df.hasCol "timestamp" = true)
    (h3 : df.getDtype "timestamp" = Dtype.dt) :
    ∃ u, cdfTempRate df = Except.ok u ∧
      u.getCells "temp_delta" = diffV (df.getCells "temperature") ∧
      u.getCells "temp_rate" =
        List.zipWith Val.div (diffV (df.getCells "temperature"))
          (diffV (df.getCells "timestamp")) ∧
      u.getCells "temperature" = df.getCells "temperature" ∧
      u.getCells "timestamp" = df.getCells "timestamp" := by
  rw [cdfTempRate, h1, if_pos rfl]
  have hts1 : (df.setCol "temp_delta" Dtype.num
      (diffV (df.getCells "temperature"))).hasCol "timestamp" = true := by
    rw [Table.hasCol_setCol_ne df (by decide)]
    exact h2
  have hdt1 : (df.setCol "temp_delta" Dtype.num
      (diffV (df.getCells "temperature"))).getDtype "timestamp" = Dtype.dt := by
    rw [Table.getDtype_setCol_ne df (by decide)]
    exact h3
  simp only [hts1, Bool.not_true, Bool.false_eq_true, if_false]
  rw [show tsDiffSeconds (df.setCol "temp_delta" Dtype.num
      (diffV (df.getCells "temperature"))) =
    Except.ok (diffV ((df.setCol "temp_delta" Dtype.num
      (diffV (df.getCells "temperature"))).getCells "timestamp")) from by
    rw [tsDiffSeconds, hdt1]; rfl]
  refine ⟨_, rfl, ?_, ?_, ?_, ?_⟩
  · rw [Table.getCells_setCol_ne _ (by decide), Table.getCells_setCol_self]
  · rw [Table.getCells_setCol_self, Table.getCells_setCol_self,
      Table.getCells_setCol_ne df (by decide)]
  · rw [Table.getCells_setCol_ne _ (by decide), Table.getCells_setCol_ne df (by decide)]
  · rw [Table.getCells_setCol_ne _ (by decide), Table.getCells_setCol_ne df (by decide)]

/-- Claim C7 (amended): in the output of `calculate_derived_features`,
`temp_delta` is the first difference of the temperature column (missing in
row 0) and `temp_rate` is `temp_delta` divided by the elapsed seconds under
IEEE float division: missing where the delta is missing, but `±inf` (not
`NaN` as the spec claims) where the elapsed time is 0 and the delta is a
nonzero rational, and `NaN` where both are 0. -/
theorem claim_C7 (sqrt : ℚ → ℚ) (t : Table)
    (h1 : t.hasCol "temperature" = true) (h2 : t.hasCol "timestamp" = true)
    (h3 : t.getDtype "timestamp" = Dtype.dt) :
    ∃ u, calculate_derived_features sqrt t = Except.ok u ∧
      u.getCells "temp_delta" = diffV (u.getCells "temperature") ∧
      u.getCells "temp_rate" =
        List.zipWith Val.div (u.getCells "temp_delta")
          (diffV (u.getCells "timestamp")) ∧
      (∀ i e, (u.getCells "temp_delta").get? i = some Val.nan →
        (diffV (u.getCells "timestamp")).get? i = some e →
        (u.getCells "temp_rate").get? i = some Val.nan) ∧
      (∀ i a, (u.getCells "temp_delta").get? i = some (Val.rat a) →
        (diffV (u.getCells "timestamp")).get? i = some (Val.rat 0) →
        (u.getCells "temp_rate").get? i =
          some (if a = 0 then Val.nan else if 0 < a then Val.inf else Val.ninf)) := by
  have p1 : (cdfPower t).hasCol "temperature" = true := by
    rw [hasCol_cdfPower t (by decide)]
    exact h1
  have p2 : (cdfPower t).hasCol "timestamp" = true := by
    rw [hasCol_cdfPower t (by decide)]
    exact h2
  have p3 : (cdfPower t).getDtype "timestamp" = Dtype.dt := by
    rw [getDtype_cdfPower t (by decide)]
    exact h3
  obtain ⟨df2, hok2, hprops⟩ := cdfEnergy_props (cdfPower t) p3
  obtain ⟨ht2, hd2, _⟩ := hprops "temperature" (by decide) (by decide)
  obtain ⟨hs2, hsd2, _⟩ := hprops "timestamp" (by decide) (by decide)
  obtain ⟨u0, hok3, he1, he2, he3, he4⟩ :=
    cdfTempRate_ok df2 (ht2.trans p1) (hs2.trans p2) (hsd2.trans p3)
  refine ⟨cdfVoltStd sqrt u0, ?_, ?_⟩
  · rw [calculate_derived_features, hok2]
    show (cdfTempRate df2 >>= fun df => pure (cdfVoltStd sqrt df)) = _
    rw [hok3]
    rfl
  · have g1 : (cdfVoltStd sqrt u0).getCells "temp_delta" =
        u0.getCells "temp_delta" := cdfVoltStd_getCells_ne sqrt u0 _ (by decide)
    have g2 : (cdfVoltStd sqrt u0).getCells "temp_rate" =
        u0.getCells "temp_rate" := cdfVoltStd_getCells_ne sqrt u0 _ (by decide)
    have g3 : (cdfVoltStd sqrt u0).getCells "temperature" =
        u0.getCells "temperature" := cdfVoltStd_getCells_ne sqrt u0 _ (by decide)
    have g4 : (cdfVoltStd sqrt u0).getCells "timestamp" =
        u0.getCells "timestamp" := cdfVoltStd_getCells_ne sqrt u0 _ (by decide)
    have key1 : (cdfVoltStd sqrt u0).getCells "temp_delta" =
        diffV ((cdfVoltStd sqrt u0).getCells "temperature") := by
      rw [g1, g3, he1, he3]
    have key2 : (cdfVoltStd sqrt u0).getCells "temp_rate" =
        List.zipWith Val.div ((cdfVoltStd sqrt u0).getCells "temp_delta")
          (diffV ((cdfVoltStd sqrt u0).getCells "timestamp")) := by
      rw [g2, he2, g1, he1, g4, he4]
    refine ⟨key1, key2, ?_, ?_⟩
    · intro i e hd he
      rw [key2, zipWith_get?_some Val.div hd he, Val.nan_div]
    · intro i a hd he
      rw [key2, zipWith_get?_some Val.div hd he, Val.rat_div_zero]

/-- Counterexample for C7 as stated: two samples with the same timestamp
and a temperature jump of 5; the elapsed time is 0 and `temp_rate` is
`inf`, not the `NaN` the specification promises. -/
theorem claim_C7_counterexample :
    (calculate_derived_features id exTableZeroElapsed).toOption.map
        (fun u => ((u.getCells "temp_delta").get? 1,
          (diffV (u.getCells "timestamp")).get? 1,
          (u.getCells "temp_rate").get? 1)) =
      some (some (Val.rat 5), some (Val.rat 0), some Val.inf) ∧
    Val.inf ≠ Val.nan := by
  constructor
  · decide
  · decide

/-- Witness for C7 at a concrete table (the same degenerate table exercises
both the missing-delta row 0 and the zero-elapsed row 1). -/
theorem claim_C7_witness :
    exTableZeroElapsed.hasCol "temperature" = true ∧
    exTableZeroElapsed.hasCol "timestamp" = true ∧
    exTableZeroElapsed.getDtype "timestamp" = Dtype.dt ∧
    ∃ u, calculate_derived_features id exTableZeroElapsed = Except.ok u ∧
      u.getCells "temp_delta" = diffV (u.getCells "temperature") ∧
      u.getCells "temp_rate" =
        List.zipWith Val.div (u.getCells "temp_delta")
          (diffV (u.getCells "timestamp")) ∧
      (∀ i e, (u.getCells "temp_delta").get? i = some Val.nan →
        (diffV (u.getCells "timestamp")).get? i = some e →
        (u.getCells "temp_rate").get? i = some Val.nan) ∧
      (∀ i a, (u.getCells "temp_delta").get? i = some (Val.rat a) →
        (diffV (u.getCells "timestamp")).get? i = some (Val.rat 0) →
        (u.getCells "temp_rate").get? i =
          some (if a = 0 then Val.nan else if 0 < a then Val.inf else Val.ninf)) :=
  ⟨by decide, by decide, by decide,
    claim_C7 id exTableZeroElapsed (by decide) (by decide) (by decide)⟩

/-! ## Claim C2 — what the clipping step does and does not skip -/

theorem clipV_nan (lo hi x : Val) (h : x.isNaN = true) : clipV lo hi x = x := by
  rw [clipV, if_pos h]

theorem getDtype_setCol_self (t : Table) (n : String) (d : Dtype)
    (cs : List Val) : (t.setCol n d cs).getDtype n = d := by
  rw [Table.getDtype, Table.getCol?_setCol_self]
  rfl

theorem clipStep_colNames (t : Table) (n : String) :
    (clipStep t n).colNames = t.colNames := by
  rw [clipStep]
  split
  · next h =>
    rw [Table.colNames_setCol, if_pos h]
  · rfl

theorem clipStep_getCells_ne (t : Table) {m n : String} (h : n ≠ m) :
    (clipStep t m).getCells n = t.getCells n := by
  rw [clipStep]
  split
  · rw [Table.getCells_setCol_ne t h]
  · rfl

theorem clipStep_getDtype (t : Table) (m n : String) :
    (clipStep t m).getDtype n = t.getDtype n := by
  rw [clipStep]
  split
  · next h =>
    by_cases hnm : n = m
    · subst hnm
      rw [getDtype_setCol_self]
    · rw [Table.getDtype_setCol_ne t hnm]
  · rfl

theorem clipStep_getCells_length (t : Table) (m n : String) :
    ((clipStep t m).getCells n).length = (t.getCells n).length := by
  rw [clipStep]
  split
  · by_cases hnm : n = m
    · subst hnm
      rw [Table.getCells_setCol_self, List.length_map]
    · rw [Table.getCells_setCol_ne t hnm]
  · rfl

theorem clipStep_allNaN (t : Table) (n : String)
    (hall : ∀ c ∈ t.getCells n, c.isNaN = true) :
    (clipStep t n).getCells n = t.getCells n := by
  rw [clipStep]
  split
  · rw [Table.getCells_setCol_self]
    calc (t.getCells n).map _
        = (t.getCells n).map id :=
          List.map_congr_left (fun a ha => clipV_nan _ _ a (hall a ha))
      _ = t.getCells n := List.map_id _
  · rfl

theorem clipStep_hasCol (t : Table) (m n : String) :
    (clipStep t m).hasCol n = t.hasCol n := by
  rw [Table.hasCol, clipStep_colNames]
  rfl

theorem cleanClip_eq (s : Table) :
    cleanClip s = clipStep (clipStep (clipStep s "voltage") "current") "temperature" :=
  rfl

/-- Claim C2 (amended): the clipping step of `clean_data` never changes the
table's shape — column labels, dtypes and every column's length are
preserved — and a column among `{voltage, current, temperature}` that is
entirely missing is returned unchanged (its `NaN` quantile bounds clip
nothing).  However the code has no skip for columns with fewer than 4
distinct values: such a column can be changed (see the counterexample). -/
theorem claim_C2 (s : Table) :
    (cleanClip s).colNames = s.colNames ∧
    (∀ n, ((cleanClip s).getCells n).length = (s.getCells n).length) ∧
    (∀ n, (cleanClip s).getDtype n = s.getDtype n) ∧
    (∀ n, n ∈ ["voltage", "current", "temperature"] →
      (∀ c ∈ s.getCells n, c.isNaN = true) →
      (cleanClip s).getCells n = s.getCells n) := by
  show (clipStep (clipStep (clipStep s "voltage") "current") "temperature").colNames
      = s.colNames ∧ _ ∧ _ ∧ _
  refine ⟨?_, ?_, ?_, ?_⟩
  · rw [clipStep_colNames, clipStep_colNames, clipStep_colNames]
  · intro n
    rw [show cleanClip s =
      clipStep (clipStep (clipStep s "voltage") "current") "temperature" from rfl]
    rw [clipStep_getCells_length, clipStep_getCells_length, clipStep_getCells_length]
  · intro n
    rw [show cleanClip s =
      clipStep (clipStep (clipStep s "voltage") "current") "temperature" from rfl]
    rw [clipStep_getDtype, clipStep_getDtype, clipStep_getDtype]
  · intro n hn hall
    rw [show cleanClip s =
      clipStep (clipStep (clipStep s "voltage") "current") "temperature" from rfl]
    simp only [List.mem_cons, List.not_mem_nil, or_false] at hn
    rcases hn with rfl | rfl | rfl
    · rw [clipStep_getCells_ne _ (by decide), clipStep_getCells_ne _ (by decide),
        clipStep_allNaN s _ hall]
    · rw [clipStep_getCells_ne _ (by decide),
        clipStep_allNaN _ _ (by rwa [clipStep_getCells_ne s (by decide)]),
        clipStep_getCells_ne s (by decide)]
    · rw [clipStep_allNaN _ _
          (by rwa [clipStep_getCells_ne _ (by decide), clipStep_getCells_ne s (by decide)]),
        clipStep_getCells_ne _ (by decide), clipStep_getCells_ne s (by decide)]

/-- Witness for C2 at a concrete table whose voltage column is entirely
missing. -/
theorem claim_C2_witness :
    (∀ c ∈ exTableAllNaNVolt.getCells "voltage", c.isNaN = true) ∧
    (cleanClip exTableAllNaNVolt).getCells "voltage" =
      exTableAllNaNVolt.getCells "voltage" ∧
    (∀ n, ((cleanClip exTableAllNaNVolt).getCells n).length =
      (exTableAllNaNVolt.getCells n).length) :=
  ⟨by decide,
    (claim_C2 exTableAllNaNVolt).2.2.2 "voltage" (by decide) (by decide),
    (claim_C2 exTableAllNaNVolt).2.1⟩

/-- Counterexample for C2 as stated: the voltage column `[0,0,0,0,1000]`
(five distinct timestamps, so deduplication and filling change nothing) has
only two distinct values, yet the clipping step is not skipped — `Q1 = Q3 =
0` gives the degenerate interval `[0,0]` and the 1000 is clipped to 0. -/
theorem claim_C2_counterexample :
    (clean_data exTableFewDistinct).toOption =
      some (cleanClip (cleanFill (cleanSort (cleanDedup exTableFewDistinct)))) ∧
    (cleanFill (cleanSort (cleanDedup exTableFewDistinct))).getCells "voltage" =
      exTableFewDistinct.getCells "voltage" ∧
    (∀ c ∈ (cleanFill (cleanSort (cleanDedup exTableFewDistinct))).getCells "voltage",
      c = Val.rat 0 ∨ c = Val.rat 1000) ∧
    (cleanClip (cleanFill (cleanSort (cleanDedup exTableFewDistinct)))).getCells
        "voltage" ≠
      (cleanFill (cleanSort (cleanDedup exTableFewDistinct))).getCells "voltage" := by
  refine ⟨?_, ?_, ?_, ?_⟩ <;> decide

/-! ## Claim C3 — where the clip bounds really come from -/

theorem Val.isFinite_iff {c : Val} : c.isFinite = true ↔ ∃ x : ℚ, c = Val.rat x := by
  cases c <;> simp [Val.isFinite]

theorem allRat_eq_map {xs : List Val} (h : ∀ c ∈ xs, ∃ x : ℚ, c = Val.rat x) :
    ∃ rs : List ℚ, xs = rs.map Val.rat := by
  induction xs with
  | nil => exact ⟨[], rfl⟩
  | cons c xs ih =>
    obtain ⟨x, rfl⟩ := h c (List.mem_cons_self c xs)
    obtain ⟨rs, rfl⟩ := ih (fun d hd => h d (List.mem_cons_of_mem _ hd))
    exact ⟨x :: rs, rfl⟩

theorem exists_sorted_rats (cells : List Val)
    (hrat : ∀ c ∈ cells, ∃ x : ℚ, c = Val.rat x) :
    ∃ rs : List ℚ,
      (cells.filter (fun c => !c.isNaN)).insertionSort (fun a b => Val.leSort a b)
        = rs.map Val.rat ∧ rs.Sorted (· ≤ ·) ∧ rs.length = cells.length := by
  have hfil : cells.filter (fun c => !c.isNaN) = cells := by
    rw [List.filter_eq_self]
    intro c hc
    obtain ⟨x, rfl⟩ := hrat c hc
    rfl
  rw [hfil]
  haveI hTr : IsTrans Val (fun a b => Val.leSort a b) :=
    ⟨fun a b c hab hbc => Val.leSort_trans a b c hab hbc⟩
  haveI hTo : IsTotal Val (fun a b => Val.leSort a b) :=
    ⟨fun a b => Bool.or_eq_true_iff.mp (Val.leSort_total a b)⟩
  obtain ⟨rs, hmap⟩ :=
    @allRat_eq_map (List.insertionSort (fun a b => Val.leSort a b) cells)
    (fun c hc => hrat c
      ((List.perm_insertionSort (fun a b => Val.leSort a b) cells).mem_iff.mp hc))
  refine ⟨rs, hmap, ?_, ?_⟩
  · have hsorted := List.sorted_insertionSort (fun a b => Val.leSort a b) cells
    rw [hmap] at hsorted
    rw [List.Sorted, List.pairwise_map] at hsorted
    refine hsorted.imp ?_
    intro a b hab
    have : Val.leSort (Val.rat a) (Val.rat b) = decide (a ≤ b) := rfl
    rw [this] at hab
    exact of_decide_eq_true hab
  · have := (List.perm_insertionSort (fun a b => Val.leSort a b) cells).length_eq
    rw [hmap, List.length_map] at this
    exact this

theorem getD_map_rat (rs : List ℚ) (i : Nat) (h : i < rs.length) :
    (rs.map Val.rat).getD i Val.nan = Val.rat (rs.getD i 0) := by
  induction rs generalizing i with
  | nil => cases h
  | cons x rs ih =>
    cases i with
    | zero => rfl
    | succ i =>
      show (rs.map Val.rat).getD i Val.nan = Val.rat (rs.getD i 0)
      exact ih i (Nat.lt_of_succ_lt_succ h)

theorem getD_mono_of_sorted {rs : List ℚ} (hs : rs.Sorted (· ≤ ·)) {i j : Nat}
    (hij : i ≤ j) (hj : j < rs.length) : rs.getD i 0 ≤ rs.getD j 0 := by
  rcases Nat.eq_or_lt_of_le hij with rfl | hlt
  · exact le_refl _
  · have hi : i < rs.length := lt_trans hlt hj
    rw [List.getD_eq_getElem rs 0 hi, List.getD_eq_getElem rs 0 hj]
    exact hs.rel_get_of_lt (show (⟨i, hi⟩ : Fin rs.length) < ⟨j, hj⟩ from hlt)

/-- Positions used by the interpolation: the floor index is at most `m`. -/
theorem floor_toNat_le {p : ℚ} (m : Nat) (h0 : 0 ≤ p) (hm : p ≤ (m : ℚ)) :
    p.floor.toNat ≤ m := by
  apply Int.toNat_le.mpr
  calc ⌊p⌋ ≤ ⌊(m : ℚ)⌋ := Int.floor_le_floor hm
    _ = (m : ℤ) := Int.floor_natCast m

theorem floor_toNat_cast {p : ℚ} (h0 : 0 ≤ p) :
    ((p.floor.toNat : Nat) : ℚ) = ((⌊p⌋ : ℤ) : ℚ) := by
  have : ((p.floor.toNat : Nat) : ℤ) = ⌊p⌋ :=
    Int.toNat_of_nonneg (Int.floor_nonneg.mpr h0)
  exact_mod_cast congrArg (fun z : ℤ => (z : ℚ)) this

/-- If the fractional part is nonzero the floor index is strictly below
`m`. -/
theorem floor_toNat_lt {p : ℚ} (m : Nat) (h0 : 0 ≤ p) (hm : p ≤ (m : ℚ))
    (hf : p - (p.floor.toNat : ℚ) ≠ 0) : p.floor.toNat < m := by
  rcases Nat.lt_or_ge p.floor.toNat m with h | h
  · exact h
  · exfalso
    have hle : p.floor.toNat ≤ m := floor_toNat_le m h0 hm
    have heq : p.floor.toNat = m := le_antisymm hle h
    apply hf
    rw [floor_toNat_cast h0]
    have h1 : ((m : ℚ)) ≤ ((⌊p⌋ : ℤ) : ℚ) := by
      rw [← floor_toNat_cast h0, heq]
    have h2 : ((⌊p⌋ : ℤ) : ℚ) ≤ p := Int.floor_le p
    have h3 : p = ((⌊p⌋ : ℤ) : ℚ) := le_antisymm (le_trans hm h1) h2
    linarith

/-- `quantileV` on an all-rational nonempty column computes `interpAt` of
the sorted rationals. -/
theorem quantileV_eval (cells : List Val) (rs : List ℚ) (m : Nat)
    (hx : (cells.filter (fun c => !c.isNaN)).insertionSort
      (fun a b => Val.leSort a b) = rs.map Val.rat)
    (hlen : rs.length = m + 1) (q : ℚ) (h0 : 0 ≤ q) (h1 : q ≤ 1) :
    quantileV cells q = Val.rat (interpAt rs q m) := by
  have hm0 : (0 : ℚ) ≤ (m : ℚ) := Nat.cast_nonneg m
  have hp0 : 0 ≤ qmul q (m : ℚ) := by
    rw [qmul_eq]
    exact mul_nonneg h0 hm0
  have hpm : qmul q (m : ℚ) ≤ (m : ℚ) := by
    rw [qmul_eq]
    calc q * (m : ℚ) ≤ 1 * (m : ℚ) := mul_le_mul_of_nonneg_right h1 hm0
      _ = (m : ℚ) := one_mul _
  have hkm : (qmul q (m : ℚ)).floor.toNat ≤ m := floor_toNat_le m hp0 hpm
  have hkrange : (qmul q (m : ℚ)).floor.toNat < rs.length := by
    rw [hlen]
    exact Nat.lt_succ_of_le hkm
  rw [quantileV, interpAt]
  simp only [hx, List.length_map, hlen]
  rw [if_neg (Nat.succ_ne_zero m), Nat.add_sub_cancel]
  by_cases hf : (qsub (qmul q (m : ℚ)) (((qmul q (m : ℚ)).floor.toNat : Nat) : ℚ)).num = 0
  · rw [if_pos hf, if_pos hf, getD_map_rat rs _ hkrange]
  · rw [if_neg hf, if_neg hf]
    have hklt : (qmul q (m : ℚ)).floor.toNat < m := by
      apply floor_toNat_lt m hp0 hpm
      intro hzero
      apply hf
      rw [Rat.num_eq_zero, qsub_eq]
      exact hzero
    have hk1range : (qmul q (m : ℚ)).floor.toNat + 1 < rs.length := by
      rw [hlen]
      exact Nat.succ_lt_succ hklt
    rw [getD_map_rat rs _ hkrange, getD_map_rat rs _ hk1range]
    show Val.rat (qadd _ (qmul _ (qadd _ (qneg _)))) = Val.rat (qadd _ (qmul _ (qsub _ _)))
    congr 1
    simp only [qadd_eq, qmul_eq, qsub_eq, qneg_eq]
    ring

/-- Monotonicity of the linear-interpolation quantile on a sorted list. -/
theorem interpAt_mono (rs : List ℚ) (hs : rs.Sorted (· ≤ ·)) (m : Nat)
    (hlen : rs.length = m + 1) {q1 q2 : ℚ} (h0 : 0 ≤ q1) (h12 : q1 ≤ q2)
    (h2 : q2 ≤ 1) : interpAt rs q1 m ≤ interpAt rs q2 m := by
  have hm0 : (0 : ℚ) ≤ (m : ℚ) := Nat.cast_nonneg m
  have hA : ∀ i j, i ≤ j → j ≤ m → rs.getD i 0 ≤ rs.getD j 0 := by
    intro i j hij hj
    exact getD_mono_of_sorted hs hij (by rw [hlen]; exact Nat.lt_succ_of_le hj)
  have hq10 : 0 ≤ q1 := h0
  have hq20 : 0 ≤ q2 := le_trans h0 h12
  have hq11 : q1 ≤ 1 := le_trans h12 h2
  have hp10 : 0 ≤ qmul q1 (m : ℚ) := by rw [qmul_eq]; exact mul_nonneg hq10 hm0
  have hp20 : 0 ≤ qmul q2 (m : ℚ) := by rw [qmul_eq]; exact mul_nonneg hq20 hm0
  have hp1m : qmul q1 (m : ℚ) ≤ (m : ℚ) := by
    rw [qmul_eq]
    calc q1 * (m : ℚ) ≤ 1 * (m : ℚ) := mul_le_mul_of_nonneg_right hq11 hm0
      _ = (m : ℚ) := one_mul _
  have hp2m : qmul q2 (m : ℚ) ≤ (m : ℚ) := by
    rw [qmul_eq]
    calc q2 * (m : ℚ) ≤ 1 * (m : ℚ) := mul_le_mul_of_nonneg_right h2 hm0
      _ = (m : ℚ) := one_mul _
  have hp12 : qmul q1 (m : ℚ) ≤ qmul q2 (m : ℚ) := by
    rw [qmul_eq, qmul_eq]
    exact mul_le_mul_of_nonneg_right h12 hm0
  set p1 : ℚ := qmul q1 (m : ℚ) with hp1def
  set p2 : ℚ := qmul q2 (m : ℚ) with hp2def
  set k1 : Nat := p1.floor.toNat with hk1def
  set k2 : Nat := p2.floor.toNat with hk2def
  have hk1m : k1 ≤ m := floor_toNat_le m hp10 hp1m
  have hk2m : k2 ≤ m := floor_toNat_le m hp20 hp2m
  have hk12 : k1 ≤ k2 := Int.toNat_le_toNat (Int.floor_le_floor hp12)
  have hc1 : ((k1 : Nat) : ℚ) = ((⌊p1⌋ : ℤ) : ℚ) := floor_toNat_cast hp10
  have hc2 : ((k2 : Nat) : ℚ) = ((⌊p2⌋ : ℤ) : ℚ) := floor_toNat_cast hp20
  have hf1nn : 0 ≤ p1 - ((k1 : Nat) : ℚ) := by
    rw [hc1, Int.self_sub_floor]
    exact Int.fract_nonneg p1
  have hf2nn : 0 ≤ p2 - ((k2 : Nat) : ℚ) := by
    rw [hc2, Int.self_sub_floor]
    exact Int.fract_nonneg p2
  have hf1lt : p1 - ((k1 : Nat) : ℚ) < 1 := by
    rw [hc1, Int.self_sub_floor]
    exact Int.fract_lt_one p1
  have hf2lt : p2 - ((k2 : Nat) : ℚ) < 1 := by
    rw [hc2, Int.self_sub_floor]
    exact Int.fract_lt_one p2
  rw [interpAt, interpAt]
  simp only [← hp1def, ← hp2def, ← hk1def, ← hk2def, qadd_eq, qmul_eq, qsub_eq]
  by_cases hz1 : (p1 - ((k1 : Nat) : ℚ)).num = 0
  · rw [if_pos hz1]
    by_cases hz2 : (p2 - ((k2 : Nat) : ℚ)).num = 0
    · rw [if_pos hz2]
      exact hA k1 k2 hk12 hk2m
    · rw [if_neg hz2]
      have hk2lt : k2 < m := by
        apply floor_toNat_lt m hp20 hp2m
        intro hzero
        apply hz2
        rw [Rat.num_eq_zero]
        exact hzero
      have hd2 : 0 ≤ rs.getD (k2 + 1) 0 - rs.getD k2 0 := by
        rw [sub_nonneg]
        exact hA k2 (k2 + 1) (Nat.le_succ k2) hk2lt
      have hstep : rs.getD k1 0 ≤ rs.getD k2 0 := hA k1 k2 hk12 hk2m
      nlinarith [mul_nonneg hf2nn hd2]
  · rw [if_neg hz1]
    have hk1lt : k1 < m := by
      apply floor_toNat_lt m hp10 hp1m
      intro hzero
      apply hz1
      rw [Rat.num_eq_zero]
      exact hzero
    have hd1 : 0 ≤ rs.getD (k1 + 1) 0 - rs.getD k1 0 := by
      rw [sub_nonneg]
      exact hA k1 (k1 + 1) (Nat.le_succ k1) hk1lt
    have hv1le : rs.getD k1 0 +
        (p1 - ((k1 : Nat) : ℚ)) * (rs.getD (k1 + 1) 0 - rs.getD k1 0)
        ≤ rs.getD (k1 + 1) 0 := by
      nlinarith [mul_nonneg (show (0:ℚ) ≤ 1 - (p1 - ((k1 : Nat) : ℚ)) from by
        linarith) hd1]
    by_cases hz2 : (p2 - ((k2 : Nat) : ℚ)).num = 0
    · rw [if_pos hz2]
      have hz2q : p2 - ((k2 : Nat) : ℚ) = 0 := Rat.num_eq_zero.mp hz2
      have hk1k2 : k1 < k2 := by
        rcases Nat.lt_or_ge k1 k2 with h | h
        · exact h
        · exfalso
          have hkk : k1 = k2 := le_antisymm hk12 h
          apply hz1
          rw [Rat.num_eq_zero]
          have hp2k : p2 = ((k2 : Nat) : ℚ) := by linarith
          have h1 : p1 ≤ ((k1 : Nat) : ℚ) := by
            rw [hkk, ← hp2k]
            exact hp12
          have h2 : ((k1 : Nat) : ℚ) ≤ p1 := by
            rw [hc1]
            exact Int.floor_le p1
          linarith
      have hfinal : rs.getD (k1 + 1) 0 ≤ rs.getD k2 0 :=
        hA (k1 + 1) k2 hk1k2 hk2m
      exact le_trans hv1le hfinal
    · rw [if_neg hz2]
      have hk2lt : k2 < m := by
        apply floor_toNat_lt m hp20 hp2m
        intro hzero
        apply hz2
        rw [Rat.num_eq_zero]
        exact hzero
      have hd2 : 0 ≤ rs.getD (k2 + 1) 0 - rs.getD k2 0 := by
        rw [sub_nonneg]
        exact hA k2 (k2 + 1) (Nat.le_succ k2) hk2lt
      rcases Nat.lt_or_ge k1 k2 with hlt | hge
      · have hmid : rs.getD (k1 + 1) 0 ≤ rs.getD k2 0 := hA (k1 + 1) k2 hlt hk2m
        have hv2ge : rs.getD k2 0 ≤ rs.getD k2 0 +
            (p2 - ((k2 : Nat) : ℚ)) * (rs.getD (k2 + 1) 0 - rs.getD k2 0) := by
          nlinarith [mul_nonneg hf2nn hd2]
        linarith
      · have hkk : k1 = k2 := le_antisymm hk12 hge
        have hpk : ((k1 : Nat) : ℚ) = ((k2 : Nat) : ℚ) := by
          exact_mod_cast congrArg (fun n : Nat => (n : ℚ)) hkk
        rw [hkk]
        have hff : p1 - ((k2 : Nat) : ℚ) ≤ p2 - ((k2 : Nat) : ℚ) := by
          linarith
        have hf1nn2 : 0 ≤ p1 - ((k2 : Nat) : ℚ) := by
          rw [← hpk]
          exact hf1nn
        have hd2s : 0 ≤ rs.getD (k2 + 1) 0 - rs.getD k2 0 := hd2
        linarith [mul_le_mul_of_nonneg_right hff hd2s]

/-- Clipping a finite value to finite bounds `lo ≤ hi` lands in `[lo, hi]`. -/
theorem clipV_rat_mem (lo hi x : ℚ) (h : lo ≤ hi) :
    ∃ y : ℚ, clipV (Val.rat lo) (Val.rat hi) (Val.rat x) = Val.rat y ∧
      lo ≤ y ∧ y ≤ hi := by
  rw [clipV]
  rw [if_neg (show ¬(Val.rat x).isNaN = true from by simp [Val.isNaN])]
  by_cases h1 : x < lo
  · rw [if_pos (show (Val.rat x).ltB (Val.rat lo) = true from decide_eq_true h1)]
    rw [if_neg (show ¬(Val.rat lo).gtB (Val.rat hi) = true from by
      simp only [Val.gtB, Val.ltB]
      simpa using not_lt.mpr h)]
    exact ⟨lo, rfl, le_refl lo, h⟩
  · rw [if_neg (show ¬(Val.rat x).ltB (Val.rat lo) = true from by
      simp only [Val.ltB]
      simpa using h1)]
    by_cases h2 : hi < x
    · rw [if_pos (show (Val.rat x).gtB (Val.rat hi) = true from decide_eq_true h2)]
      exact ⟨hi, rfl, h, le_refl hi⟩
    · rw [if_neg (show ¬(Val.rat x).gtB (Val.rat hi) = true from by
        simp only [Val.gtB, Val.ltB]
        simpa using h2)]
      exact ⟨x, rfl, not_lt.mp h1, not_lt.mp h2⟩

/-- The voltage cells of `clipStep _ "voltage"` when the column is present:
each original cell clipped to the quartile interval. -/
theorem clipStep_voltage_cells (s : Table) (hv : s.hasCol "voltage" = true) :
    (clipStep s "voltage").getCells "voltage" =
      (s.getCells "voltage").map
        (clipV
          ((quantileV (s.getCells "voltage") (mkRat 1 4)).sub
            ((Val.rat 3).mul ((quantileV (s.getCells "voltage") (mkRat 3 4)).sub
              (quantileV (s.getCells "voltage") (mkRat 1 4)))))
          ((quantileV (s.getCells "voltage") (mkRat 3 4)).add
            ((Val.rat 3).mul ((quantileV (s.getCells "voltage") (mkRat 3 4)).sub
              (quantileV (s.getCells "voltage") (mkRat 1 4)))))) := by
  rw [clipStep, hv, if_pos rfl]
  rw [Table.getCells_setCol_self]

/-- Claim C3 (amended): every voltage value of the `clean_data` output lies
in `[Q1 − 3·IQR, Q3 + 3·IQR]` where the quartiles are those of the
deduplicated, sorted and filled voltage values — the values the code
actually computes its bounds from — rather than of the original
pre-cleaning column (see the counterexample for the original statement).
The hypotheses say the post-fill voltage column is nonempty and free of
infinities; the claim's nonzero-variance premise implies them. -/
theorem claim_C3 (t : Table) (hts : t.hasCol "timestamp" = true)
    (hfin : ∀ c ∈ (cleanFill (cleanSort (cleanDedup t))).getCells "voltage",
      c.isFinite = true)
    (hne : (cleanFill (cleanSort (cleanDedup t))).getCells "voltage" ≠ []) :
    ∃ u, clean_data t = Except.ok u ∧
      ∃ q1 q3 : ℚ,
        quantileV ((cleanFill (cleanSort (cleanDedup t))).getCells "voltage")
          (mkRat 1 4) = Val.rat q1 ∧
        quantileV ((cleanFill (cleanSort (cleanDedup t))).getCells "voltage")
          (mkRat 3 4) = Val.rat q3 ∧
        q1 ≤ q3 ∧
        ∀ c ∈ u.getCells "voltage", ∃ x : ℚ, c = Val.rat x ∧
          q1 - 3 * (q3 - q1) ≤ x ∧ x ≤ q3 + 3 * (q3 - q1) := by
  set s := cleanFill (cleanSort (cleanDedup t)) with hsdef
  clear_value s
  have hrat : ∀ c ∈ s.getCells "voltage", ∃ x : ℚ, c = Val.rat x :=
    fun c hc => Val.isFinite_iff.mp (hfin c hc)
  have hv : s.hasCol "voltage" = true := by
    cases hhas : s.hasCol "voltage"
    · exfalso
      apply hne
      rw [Table.getCells, Table.getCol?_eq_none_of_not_hasCol hhas]
      rfl
    · rfl
  obtain ⟨rs, hxs, hsort, hlen0⟩ := exists_sorted_rats (s.getCells "voltage") hrat
  have hpos : 0 < rs.length := by
    rw [hlen0]
    exact List.length_pos.mpr hne
  have hlen : rs.length = (rs.length - 1) + 1 := (Nat.succ_pred_eq_of_pos hpos).symm
  have hq14 : (0 : ℚ) ≤ mkRat 1 4 := by
    rw [Rat.mkRat_eq_div]
    norm_num
  have hq141 : (mkRat 1 4 : ℚ) ≤ 1 := by
    rw [Rat.mkRat_eq_div]
    norm_num
  have hq34 : (mkRat 1 4 : ℚ) ≤ mkRat 3 4 := by
    rw [Rat.mkRat_eq_div, Rat.mkRat_eq_div]
    norm_num
  have hq341 : (mkRat 3 4 : ℚ) ≤ 1 := by
    rw [Rat.mkRat_eq_div]
    norm_num
  have hq1 := quantileV_eval (s.getCells "voltage") rs (rs.length - 1) hxs hlen
    (mkRat 1 4) hq14 hq141
  have hq3 := quantileV_eval (s.getCells "voltage") rs (rs.length - 1) hxs hlen
    (mkRat 3 4) (le_trans hq14 hq34) hq341
  have hmono := interpAt_mono rs hsort (rs.length - 1) hlen hq14 hq34 hq341
  refine ⟨cleanClip s, ?_, ?_⟩
  · rw [hsdef, clean_data, hts]
    rfl
  refine ⟨interpAt rs (mkRat 1 4) (rs.length - 1),
    interpAt rs (mkRat 3 4) (rs.length - 1), hq1, hq3, hmono, ?_⟩
  intro c hc
  set q1 : ℚ := interpAt rs (mkRat 1 4) (rs.length - 1) with hq1def
  set q3 : ℚ := interpAt rs (mkRat 3 4) (rs.length - 1) with hq3def
  clear_value q1 q3
  have hcells : (cleanClip s).getCells "voltage" =
      (s.getCells "voltage").map
        (clipV (Val.rat (q1 - 3 * (q3 - q1))) (Val.rat (q3 + 3 * (q3 - q1)))) := by
    rw [cleanClip_eq]
    rw [clipStep_getCells_ne _ (by decide), clipStep_getCells_ne _ (by decide)]
    rw [clipStep_voltage_cells s hv, hq1, hq3]
    have hlo1 : (Val.rat q1).sub ((Val.rat 3).mul ((Val.rat q3).sub (Val.rat q1)))
        = Val.rat (qadd q1 (qneg (qmul 3 (qadd q3 (qneg q1))))) := rfl
    have hlo2 : qadd q1 (qneg (qmul 3 (qadd q3 (qneg q1)))) = q1 - 3 * (q3 - q1) := by
      simp only [qadd_eq, qneg_eq, qmul_eq]
      ring
    have hhi1 : (Val.rat q3).add ((Val.rat 3).mul ((Val.rat q3).sub (Val.rat q1)))
        = Val.rat (qadd q3 (qmul 3 (qadd q3 (qneg q1)))) := rfl
    have hhi2 : qadd q3 (qmul 3 (qadd q3 (qneg q1))) = q3 + 3 * (q3 - q1) := by
      simp only [qadd_eq, qneg_eq, qmul_eq]
      ring
    rw [hlo1, hlo2, hhi1, hhi2]
  rw [hcells] at hc
  obtain ⟨c0, hc0mem, rfl⟩ := List.mem_map.mp hc
  obtain ⟨x0, rfl⟩ := hrat c0 hc0mem
  have hbounds : q1 - 3 * (q3 - q1) ≤ q3 + 3 * (q3 - q1) := by
    linarith [hmono]
  obtain ⟨y, hy, hylo, hyhi⟩ := clipV_rat_mem (q1 - 3 * (q3 - q1))
    (q3 + 3 * (q3 - q1)) x0 hbounds
  exact ⟨y, hy, hylo, hyhi⟩

/-- Witness for C3 at a concrete table (three rows, one missing voltage
filled during cleaning). -/
theorem claim_C3_witness :
    exTableGood.hasCol "timestamp" = true ∧
    (∀ c ∈ (cleanFill (cleanSort (cleanDedup exTableGood))).getCells "voltage",
      c.isFinite = true) ∧
    (cleanFill (cleanSort (cleanDedup exTableGood))).getCells "voltage" ≠ [] ∧
    ∃ u, clean_data exTableGood = Except.ok u ∧
      ∃ q1 q3 : ℚ,
        quantileV ((cleanFill (cleanSort (cleanDedup exTableGood))).getCells
          "voltage") (mkRat 1 4) = Val.rat q1 ∧
        quantileV ((cleanFill (cleanSort (cleanDedup exTableGood))).getCells
          "voltage") (mkRat 3 4) = Val.rat q3 ∧
        q1 ≤ q3 ∧
        ∀ c ∈ u.getCells "voltage", ∃ x : ℚ, c = Val.rat x ∧
          q1 - 3 * (q3 - q1) ≤ x ∧ x ≤ q3 + 3 * (q3 - q1) :=
  ⟨by decide, by decide, by decide,
    claim_C3 exTableGood (by decide) (by decide) (by decide)⟩

/-- Counterexample for C3 as stated: with duplicate timestamps
`[1,1,1,1,2]` and voltages `[0,0,0,0,1000]`, the original column has
nonzero variance and quartiles `Q1 = Q3 = 0`, so the claimed interval is
`[0,0]`; yet the cleaned output still contains 1000 (deduplication ran
before the quartiles were computed). -/
theorem claim_C3_counterexample :
    sampleVar (exTableDupQuartiles.getCells "voltage") = Val.rat 200000 ∧
    quantileV (exTableDupQuartiles.getCells "voltage") (mkRat 1 4) = Val.rat 0 ∧
    quantileV (exTableDupQuartiles.getCells "voltage") (mkRat 3 4) = Val.rat 0 ∧
    (clean_data exTableDupQuartiles).toOption.map
      (fun u => (u.getCells "voltage").contains (Val.rat 1000)) = some true := by
  refine ⟨?_, ?_, ?_, ?_⟩ <;> decide

/-! ## Claim C1 — the cleaning invariants -/

theorem Val.not_isNaN_of_isFinite {c : Val} (h : c.isFinite = true) :
    c.isNaN = false := by
  cases c <;> simp_all [Val.isFinite, Val.isNaN]

theorem length_ffillFrom (last : Val) (cs : List Val) :
    (ffillFrom last cs).length = cs.length := by
  induction cs generalizing last with
  | nil => rfl
  | cons c cs ih =>
    rw [ffillFrom]
    split <;> simp [ih]

theorem length_fillFB (cs : List Val) : (bfill (ffill cs)).length = cs.length := by
  rw [bfill, ffill, ffill, List.length_reverse, length_ffillFrom,
    List.length_reverse, length_ffillFrom]

theorem ffillFrom_of_no_nan (last : Val) (cs : List Val)
    (h : ∀ c ∈ cs, c.isNaN = false) : ffillFrom last cs = cs := by
  induction cs generalizing last with
  | nil => rfl
  | cons c cs ih =>
    rw [ffillFrom, if_neg (by rw [h c (List.mem_cons_self c cs)]; exact Bool.false_ne_true)]
    rw [ih c (fun d hd => h d (List.mem_cons_of_mem c hd))]

theorem fillFB_of_no_nan (cs : List Val) (h : ∀ c ∈ cs, c.isNaN = false) :
    bfill (ffill cs) = cs := by
  rw [ffill, ffillFrom_of_no_nan _ _ h, bfill, ffill]
  rw [ffillFrom_of_no_nan _ _ (fun c hc => h c (List.mem_reverse.mp hc))]
  exact List.reverse_reverse cs

theorem ffillFrom_all_not_nan (last : Val) (cs : List Val)
    (hlast : last.isNaN = false) : ∀ y ∈ ffillFrom last cs, y.isNaN = false := by
  induction cs generalizing last with
  | nil => intro y hy; cases hy
  | cons c cs ih =>
    intro y hy
    rw [ffillFrom] at hy
    by_cases hc : c.isNaN = true
    · rw [if_pos hc] at hy
      rcases List.mem_cons.mp hy with rfl | hy2
      · exact hlast
      · exact ih last hlast y hy2
    · rw [if_neg hc] at hy
      rcases List.mem_cons.mp hy with rfl | hy2
      · exact Bool.not_eq_true _ ▸ (by simpa using hc)
      · exact ih c (by simpa using hc) y hy2

theorem ffill_getLast_not_nan (cs : List Val) (hex : ∃ x ∈ cs, x.isNaN = false) :
    ∃ ys y, ffill cs = ys ++ [y] ∧ y.isNaN = false := by
  rw [ffill]
  induction cs with
  | nil =>
    obtain ⟨x, hx, _⟩ := hex
    cases hx
  | cons c cs ih =>
    by_cases hc : c.isNaN = true
    · rw [ffillFrom, if_pos hc]
      have hex2 : ∃ x ∈ cs, x.isNaN = false := by
        obtain ⟨x, hx, hxn⟩ := hex
        rcases List.mem_cons.mp hx with rfl | hx2
        · rw [hc] at hxn
          cases hxn
        · exact ⟨x, hx2, hxn⟩
      obtain ⟨ys, y, hys, hy⟩ := ih hex2
      exact ⟨Val.nan :: ys, y, by rw [hys]; rfl, hy⟩
    · rw [ffillFrom, if_neg hc]
      have hcf : c.isNaN = false := by simpa using hc
      have hall := ffillFrom_all_not_nan c cs hcf
      cases hcs : ffillFrom c cs with
      | nil => exact ⟨[], c, rfl, hcf⟩
      | cons z zs =>
        refine ⟨c :: (z :: zs).dropLast, (z :: zs).getLast (by simp), ?_, ?_⟩
        · rw [List.cons_append, List.dropLast_append_getLast]
        · apply hall
          rw [hcs]
          exact List.getLast_mem (by simp)

/-- Forward then backward fill leaves no missing value when at least one
value was present. -/
theorem fillFB_all_not_nan (cs : List Val) (hex : ∃ x ∈ cs, x.isNaN = false) :
    ∀ y ∈ bfill (ffill cs), y.isNaN = false := by
  obtain ⟨ys, z, hys, hz⟩ := ffill_getLast_not_nan cs hex
  intro y hy
  rw [bfill, hys] at hy
  rw [List.reverse_append] at hy
  have : (ffill ([z] ++ ys.reverse)) = ffillFrom Val.nan (z :: ys.reverse) := rfl
  rw [show [z].reverse ++ ys.reverse = z :: ys.reverse from rfl] at hy
  rw [ffill, ffillFrom, if_neg (by rw [hz]; exact Bool.false_ne_true)] at hy
  have hall := ffillFrom_all_not_nan z ys.reverse hz
  rcases List.mem_reverse.mp hy with h2
  rcases List.mem_cons.mp h2 with rfl | h3
  · exact hz
  · exact hall y h3

theorem map_getD_range {α : Type} (l : List α) (d : α) :
    (List.range l.length).map (fun i => l.getD i d) = l := by
  apply List.ext_getElem
  · rw [List.length_map, List.length_range]
  · intro n h1 h2
    rw [List.getElem_map, List.getElem_range, List.getD_eq_getElem l d h2]

theorem Table.nrows_reindex (t : Table) (idxs : List Nat) (h : t.cols ≠ []) :
    (t.reindex idxs).nrows = idxs.length := by
  rw [Table.reindex, Table.nrows]
  cases hc : t.cols with
  | nil => exact absurd hc h
  | cons a l =>
    rw [List.map_cons, List.head?_cons]
    show (idxs.map _).length = idxs.length
    rw [List.length_map]

theorem Table.cols_ne_nil_of_hasCol {t : Table} {n : String}
    (h : t.hasCol n = true) : t.cols ≠ [] := by
  intro hnil
  rw [Table.hasCol_eq_isSome, Table.getCol?, hnil] at h
  cases h

theorem Table.getCells_length_eq_nrows {t : Table} {n : String}
    (huni : t.Uniform) (h : t.hasCol n = true) :
    (t.getCells n).length = t.nrows := by
  obtain ⟨c, hc⟩ := Option.isSome_iff_exists.mp ((Table.hasCol_iff_getCol? t n).mp h)
  rw [Table.getCells, hc]
  exact huni c (List.mem_of_find?_eq_some hc)

theorem Table.getCells_reindex_of_hasCol {t : Table} {n : String} (idxs : List Nat)
    (h : t.hasCol n = true) :
    (t.reindex idxs).getCells n =
      idxs.map (fun i => (t.getCells n).getD i Val.nan) := by
  obtain ⟨c, hc⟩ := Option.isSome_iff_exists.mp ((Table.hasCol_iff_getCol? t n).mp h)
  rw [Table.getCells, Table.getCol?_reindex, hc, Table.getCells, hc]
  rfl

theorem fillColF_name (c : Col) : (fillColF c).name = c.name := by
  rw [fillColF]
  split <;> rfl

theorem fillColF_dtype (c : Col) : (fillColF c).dtype = c.dtype := by
  rw [fillColF]
  split <;> rfl

theorem Table.hasCol_cleanFill (t : Table) (n : String) :
    (cleanFill t).hasCol n = t.hasCol n := by
  rw [Table.hasCol, Table.hasCol, cleanFill]
  show ((t.cols.map fillColF).map Col.name).contains n = _
  rw [List.map_map]
  rw [show Col.name ∘ fillColF = Col.name from funext fillColF_name]
  rfl

theorem Table.getCol?_cleanFill (t : Table) (n : String) :
    (cleanFill t).getCol? n = (t.getCol? n).map fillColF := by
  rw [Table.getCol?, Table.getCol?, cleanFill]
  show (t.cols.map fillColF).find? _ = _
  rw [List.find?_map]
  have hp : ((fun c : Col => c.name == n) ∘ fillColF) = (fun c : Col => c.name == n) := by
    funext c
    show ((fillColF c).name == n) = (c.name == n)
    rw [fillColF_name]
  rw [hp]

theorem Table.getCells_cleanFill_num {t : Table} {n : String}
    (hd : t.getDtype n = Dtype.num) (h : t.hasCol n = true) :
    (cleanFill t).getCells n = bfill (ffill (t.getCells n)) := by
  obtain ⟨c, hc⟩ := Option.isSome_iff_exists.mp ((Table.hasCol_iff_getCol? t n).mp h)
  rw [Table.getDtype, hc] at hd
  rw [Table.getCells, Table.getCol?_cleanFill, hc, Table.getCells, hc]
  show (fillColF c).cells = bfill (ffill c.cells)
  rw [fillColF, if_pos (by rw [show c.dtype = Dtype.num from hd]; rfl)]

theorem Table.getCells_cleanFill_id {t : Table} {n : String}
    (hfin : ∀ c ∈ t.getCells n, c.isNaN = false) :
    (cleanFill t).getCells n = t.getCells n := by
  rw [Table.getCells, Table.getCol?_cleanFill, Table.getCells]
  cases hc : t.getCol? n with
  | none => rfl
  | some c =>
    show (fillColF c).cells = c.cells
    have hcc : t.getCells n = c.cells := by
      rw [Table.getCells, hc]
      rfl
    rw [fillColF]
    split
    · show bfill (ffill c.cells) = c.cells
      exact fillFB_of_no_nan c.cells (by rw [← hcc]; exact hfin)
    · rfl

theorem Table.getDtype_cleanFill (t : Table) (n : String) :
    (cleanFill t).getDtype n = t.getDtype n := by
  rw [Table.getDtype, Table.getCol?_cleanFill, Table.getDtype]
  cases hc : t.getCol? n with
  | none => rfl
  | some c =>
    show (fillColF c).dtype = c.dtype
    exact fillColF_dtype c

theorem nrows_cleanFill (t : Table) : (cleanFill t).nrows = t.nrows := by
  cases hc : t.cols with
  | nil =>
    show ((t.cols.map fillColF).head?).elim 0 (fun c => c.cells.length)
      = (t.cols.head?).elim 0 (fun c => c.cells.length)
    rw [hc]
    rfl
  | cons a l =>
    show ((t.cols.map fillColF).head?).elim 0 (fun c => c.cells.length)
      = (t.cols.head?).elim 0 (fun c => c.cells.length)
    rw [hc]
    show (fillColF a).cells.length = a.cells.length
    rw [fillColF]
    split
    · exact length_fillFB a.cells
    · rfl

theorem clipStep_eq_setCol (t : Table) (n : String) (hn : t.hasCol n = true) :
    ∃ lo hi : Val, clipStep t n =
      t.setCol n (t.getDtype n) ((t.getCells n).map (clipV lo hi)) := by
  rw [clipStep, if_pos hn]
  exact ⟨_, _, rfl⟩

theorem clipStep_nrows (t : Table) (n : String) :
    (clipStep t n).nrows = t.nrows := by
  by_cases hn : t.hasCol n = true
  · obtain ⟨lo, hi, heq⟩ := clipStep_eq_setCol t n hn
    rw [heq, Table.setCol, if_pos hn]
    show ((t.cols.map (fun c => if c.name = n
        then (⟨n, t.getDtype n, (t.getCells n).map (clipV lo hi)⟩ : Col) else c)).head?).elim
        0 (fun c => c.cells.length) = (t.cols.head?).elim 0 (fun c => c.cells.length)
    cases hc : t.cols with
    | nil => rfl
    | cons a l =>
      show (if a.name = n
          then (⟨n, t.getDtype n, (t.getCells n).map (clipV lo hi)⟩ : Col) else a).cells.length
        = a.cells.length
      by_cases ha : a.name = n
      · rw [if_pos ha]
        show ((t.getCells n).map (clipV lo hi)).length = a.cells.length
        have hga : t.getCells n = a.cells := by
          rw [Table.getCells, Table.getCol?, hc,
            find?_cons_true (fun c => c.name == n) a l
              (by show (a.name == n) = true; rw [ha]; exact beq_self_eq_true n)]
          rfl
        rw [List.length_map, hga]
      · rw [if_neg ha]
  · rw [clipStep, if_neg hn]

theorem cleanClip_nrows (t : Table) : (cleanClip t).nrows = t.nrows := by
  rw [cleanClip_eq, clipStep_nrows, clipStep_nrows, clipStep_nrows]

theorem Val.ltB_not_nan_left {a b : Val} (h : Val.ltB a b = true) :
    a.isNaN = false := by
  cases a <;> cases b <;> simp_all [Val.ltB, Val.isNaN]

theorem Val.ltB_not_nan_right {a b : Val} (h : Val.ltB a b = true) :
    b.isNaN = false := by
  cases a <;> cases b <;> simp_all [Val.ltB, Val.isNaN]

theorem clipV_not_nan (lo hi : Val) {x : Val} (h : x.isNaN = false) :
    (clipV lo hi x).isNaN = false := by
  rw [clipV, if_neg (by rw [h]; exact Bool.false_ne_true)]
  show (if (if x.ltB lo then lo else x).gtB hi then hi
      else (if x.ltB lo then lo else x)).isNaN = false
  by_cases h1 : x.ltB lo = true
  · rw [if_pos h1]
    by_cases h2 : Val.gtB lo hi = true
    · rw [if_pos h2]
      exact Val.ltB_not_nan_left (show Val.ltB hi lo = true from h2)
    · rw [if_neg h2]
      exact Val.ltB_not_nan_right h1
  · rw [if_neg h1]
    by_cases h2 : Val.gtB x hi = true
    · rw [if_pos h2]
      exact Val.ltB_not_nan_left (show Val.ltB hi x = true from h2)
    · rw [if_neg h2]
      exact h

theorem clipStep_not_nan (t : Table) (m n : String)
    (h : ∀ y ∈ t.getCells n, y.isNaN = false) :
    ∀ y ∈ (clipStep t m).getCells n, y.isNaN = false := by
  by_cases hnm : n = m
  · subst hnm
    by_cases hn : t.hasCol n = true
    · obtain ⟨lo, hi, heq⟩ := clipStep_eq_setCol t n hn
      rw [heq, Table.getCells_setCol_self]
      intro y hy
      obtain ⟨x, hx, rfl⟩ := List.mem_map.mp hy
      exact clipV_not_nan lo hi (h x hx)
    · rw [clipStep, if_neg hn]
      exact h
  · rw [clipStep_getCells_ne t hnm]
    exact h

theorem cleanClip_not_nan (t : Table) (n : String)
    (h : ∀ y ∈ t.getCells n, y.isNaN = false) :
    ∀ y ∈ (cleanClip t).getCells n, y.isNaN = false := by
  rw [cleanClip_eq]
  exact clipStep_not_nan _ _ _ (clipStep_not_nan _ _ _ (clipStep_not_nan _ _ _ h))

theorem cleanClip_getCells_ts (t : Table) :
    (cleanClip t).getCells "timestamp" = t.getCells "timestamp" := by
  rw [cleanClip_eq,
    clipStep_getCells_ne _ (show ("timestamp" : String) ≠ "temperature" from by decide),
    clipStep_getCells_ne _ (show ("timestamp" : String) ≠ "current" from by decide),
    clipStep_getCells_ne _ (show ("timestamp" : String) ≠ "voltage" from by decide)]

theorem dedupIdxs_length_le (ts : List Val) :
    (dedupIdxs ts).length ≤ ts.length := by
  rw [dedupIdxs]
  calc ((List.range ts.length).filter _).length
      ≤ (List.range ts.length).length := List.length_filter_le _ _
    _ = ts.length := List.length_range ts.length

theorem sortIdxs_length (ts : List Val) : (sortIdxs ts).length = ts.length := by
  rw [sortIdxs, (List.perm_insertionSort _ _).length_eq, List.length_range]

theorem mem_dedupIdxs_lt {ts : List Val} {i : Nat} (h : i ∈ dedupIdxs ts) :
    i < ts.length := by
  rw [dedupIdxs] at h
  exact List.mem_range.mp (List.mem_filter.mp h).1

theorem dedupIdxs_pairwise_ne (ts : List Val) :
    List.Pairwise (fun i j => ts.getD i Val.nan ≠ ts.getD j Val.nan) (dedupIdxs ts) := by
  have hlt : List.Pairwise (· < ·) (dedupIdxs ts) := by
    rw [dedupIdxs]
    exact (List.pairwise_lt_range ts.length).sublist (List.filter_sublist _)
  refine hlt.imp_of_mem ?_
  intro a b ha hb hab
  have hbf : b ∈ dedupIdxs ts := hb
  rw [dedupIdxs, List.mem_filter] at hbf
  have hall := List.all_eq_true.mp hbf.2 a (List.mem_range.mpr hab)
  intro hEq
  rw [hEq] at hall
  simp at hall

theorem sortIdxs_perm_of_length {ts cs : List Val} (hlen : cs.length = ts.length) :
    List.Perm ((sortIdxs ts).map (fun i => cs.getD i Val.nan)) cs := by
  have h1 : List.Perm (sortIdxs ts) (List.range ts.length) :=
    List.perm_insertionSort _ _
  rw [← hlen] at h1
  have h2 := h1.map (fun i => cs.getD i Val.nan)
  rw [map_getD_range] at h2
  exact h2

theorem sortIdxs_sorted (ts : List Val) :
    List.Pairwise (fun a b => Val.leSort a b = true)
      ((sortIdxs ts).map (fun i => ts.getD i Val.nan)) := by
  rw [List.pairwise_map]
  haveI : IsTrans Nat (fun i j => Val.leSort (ts.getD i Val.nan) (ts.getD j Val.nan)) :=
    ⟨fun a b c hab hbc => Val.leSort_trans _ _ _ hab hbc⟩
  haveI : IsTotal Nat (fun i j => Val.leSort (ts.getD i Val.nan) (ts.getD j Val.nan)) :=
    ⟨fun a b => Bool.or_eq_true_iff.mp (Val.leSort_total _ _)⟩
  rw [sortIdxs]
  exact List.sorted_insertionSort _ _

theorem strictIncr_of_sorted_ne (cs : List Val)
    (hs : List.Pairwise (fun a b => Val.leSort a b = true) cs)
    (hne : List.Pairwise (fun a b => a ≠ b) cs)
    (hfin : ∀ c ∈ cs, c.isFinite = true) : StrictIncr cs := by
  rw [StrictIncr]
  refine (hs.and hne).imp_of_mem ?_
  intro a b ha hb hab
  obtain ⟨x, rfl⟩ := Val.isFinite_iff.mp (hfin a ha)
  obtain ⟨y, rfl⟩ := Val.isFinite_iff.mp (hfin b hb)
  obtain ⟨hle, hne2⟩ := hab
  have hle2 : decide (x ≤ y) = true := hle
  show decide (x < y) = true
  exact decide_eq_true (lt_of_le_of_ne (of_decide_eq_true hle2)
    (fun hxy => hne2 (congrArg Val.rat hxy)))

theorem mem_of_mem_reindexCells {t : Table} {n : String} {idxs : List Nat}
    (hn : t.hasCol n = true) (hidx : ∀ i ∈ idxs, i < (t.getCells n).length) :
    ∀ c ∈ (t.reindex idxs).getCells n, c ∈ t.getCells n := by
  rw [Table.getCells_reindex_of_hasCol idxs hn]
  intro c hc
  obtain ⟨i, hi, rfl⟩ := List.mem_map.mp hc
  rw [List.getD_eq_getElem _ Val.nan (hidx i hi)]
  exact List.getElem_mem _

/-- Claim C1 (amended): on a rectangular table with a timestamp column whose
values are all present (finite), `clean_data` succeeds, the output has at
most as many rows as the input, its timestamp column is strictly increasing
(sorted with duplicates dropped), and every numeric column that still has a
non-missing value after the deduplication step comes out with no missing
value.  The claim as stated reads "at least one non-missing value in the
input" — that version is refuted by `claim_C1_counterexample`: deduplication
can drop every row carrying the column's values before the fill runs. -/
theorem claim_C1 (t : Table) (hts : t.hasCol "timestamp" = true)
    (huni : t.Uniform)
    (hfin : ∀ c ∈ t.getCells "timestamp", c.isFinite = true) :
    ∃ u : Table, clean_data t = Except.ok u ∧
      u.nrows ≤ t.nrows ∧
      StrictIncr (u.getCells "timestamp") ∧
      (∀ n : String, t.getDtype n = Dtype.num →
        (∃ x ∈ (cleanDedup t).getCells n, x.isNaN = false) →
        ∀ y ∈ u.getCells n, y.isNaN = false) := by
  have hcols : t.cols ≠ [] := Table.cols_ne_nil_of_hasCol hts
  have h1ts : (cleanDedup t).hasCol "timestamp" = true := by
    rw [cleanDedup, Table.hasCol_reindex]
    exact hts
  have ht2 : cleanSort (cleanDedup t) =
      (cleanDedup t).reindex (sortIdxs ((cleanDedup t).getCells "timestamp")) := by
    rw [cleanSort, if_pos h1ts]
  have hts1 : (cleanDedup t).getCells "timestamp" =
      (dedupIdxs (t.getCells "timestamp")).map
        (fun i => (t.getCells "timestamp").getD i Val.nan) :=
    Table.getCells_reindex_of_hasCol _ hts
  have hts2 : (cleanSort (cleanDedup t)).getCells "timestamp" =
      (sortIdxs ((cleanDedup t).getCells "timestamp")).map
        (fun i => ((cleanDedup t).getCells "timestamp").getD i Val.nan) := by
    rw [ht2]
    exact Table.getCells_reindex_of_hasCol _ h1ts
  have hmem1 : ∀ c ∈ (cleanDedup t).getCells "timestamp",
      c ∈ t.getCells "timestamp" := by
    rw [cleanDedup]
    exact mem_of_mem_reindexCells hts (fun i hi => mem_dedupIdxs_lt hi)
  have hperm2 : List.Perm ((cleanSort (cleanDedup t)).getCells "timestamp")
      ((cleanDedup t).getCells "timestamp") := by
    rw [hts2]
    exact sortIdxs_perm_of_length rfl
  have hmem2 : ∀ c ∈ (cleanSort (cleanDedup t)).getCells "timestamp",
      c ∈ t.getCells "timestamp" :=
    fun c hc => hmem1 c (hperm2.mem_iff.mp hc)
  have hfin2 : ∀ c ∈ (cleanSort (cleanDedup t)).getCells "timestamp",
      c.isFinite = true := fun c hc => hfin c (hmem2 c hc)
  have hnonan2 : ∀ c ∈ (cleanSort (cleanDedup t)).getCells "timestamp",
      c.isNaN = false := fun c hc => Val.not_isNaN_of_isFinite (hfin2 c hc)
  have hts3 : (cleanFill (cleanSort (cleanDedup t))).getCells "timestamp" =
      (cleanSort (cleanDedup t)).getCells "timestamp" :=
    Table.getCells_cleanFill_id hnonan2
  have htsu : (cleanClip (cleanFill (cleanSort (cleanDedup t)))).getCells "timestamp" =
      (cleanSort (cleanDedup t)).getCells "timestamp" := by
    rw [cleanClip_getCells_ts, hts3]
  refine ⟨cleanClip (cleanFill (cleanSort (cleanDedup t))),
    by rw [clean_data, if_pos hts], ?_, ?_, ?_⟩
  · have hn1 : (cleanDedup t).nrows = (dedupIdxs (t.getCells "timestamp")).length := by
      rw [cleanDedup]
      exact Table.nrows_reindex t _ hcols
    have hl1 : ((cleanDedup t).getCells "timestamp").length =
        (dedupIdxs (t.getCells "timestamp")).length := by
      rw [hts1, List.length_map]
    have h1cols : (cleanDedup t).cols ≠ [] := Table.cols_ne_nil_of_hasCol h1ts
    have hn2 : (cleanSort (cleanDedup t)).nrows = (cleanDedup t).nrows := by
      rw [ht2, Table.nrows_reindex _ _ h1cols, sortIdxs_length, hl1, hn1]
    rw [cleanClip_nrows, nrows_cleanFill, hn2, hn1]
    calc (dedupIdxs (t.getCells "timestamp")).length
        ≤ (t.getCells "timestamp").length := dedupIdxs_length_le _
      _ = t.nrows := Table.getCells_length_eq_nrows huni hts
  · rw [htsu]
    apply strictIncr_of_sorted_ne
    · rw [hts2]
      exact sortIdxs_sorted _
    · refine (List.Perm.pairwise_iff (fun h => h.symm) hperm2).mpr ?_
      rw [hts1]
      exact List.pairwise_map.mpr (dedupIdxs_pairwise_ne _)
    · exact hfin2
  · intro n hdn hex
    have hasn : t.hasCol n = true := by
      rw [Table.hasCol_eq_isSome]
      cases hq : t.getCol? n with
      | none =>
        rw [Table.getDtype, hq] at hdn
        exact Dtype.noConfusion (show Dtype.obj = Dtype.num from hdn)
      | some c => rfl
    have h1n : (cleanDedup t).hasCol n = true := by
      rw [cleanDedup, Table.hasCol_reindex]
      exact hasn
    have h2n : (cleanSort (cleanDedup t)).hasCol n = true := by
      rw [ht2, Table.hasCol_reindex]
      exact h1n
    have hd2 : (cleanSort (cleanDedup t)).getDtype n = Dtype.num := by
      rw [ht2, Table.getDtype_reindex, cleanDedup, Table.getDtype_reindex]
      exact hdn
    have hlen1 : ((cleanDedup t).getCells n).length =
        ((cleanDedup t).getCells "timestamp").length := by
      rw [hts1, List.length_map]
      rw [cleanDedup, Table.getCells_reindex_of_hasCol _ hasn, List.length_map]
    have hcol2 : (cleanSort (cleanDedup t)).getCells n =
        (sortIdxs ((cleanDedup t).getCells "timestamp")).map
          (fun i => ((cleanDedup t).getCells n).getD i Val.nan) := by
      rw [ht2]
      exact Table.getCells_reindex_of_hasCol _ h1n
    have hpermn : List.Perm ((cleanSort (cleanDedup t)).getCells n)
        ((cleanDedup t).getCells n) := by
      rw [hcol2]
      exact sortIdxs_perm_of_length hlen1
    have hex2 : ∃ x ∈ (cleanSort (cleanDedup t)).getCells n, x.isNaN = false := by
      obtain ⟨x, hx, hxn⟩ := hex
      exact ⟨x, hpermn.mem_iff.mpr hx, hxn⟩
    have hnn3 : ∀ y ∈ (cleanFill (cleanSort (cleanDedup t))).getCells n,
        y.isNaN = false := by
      rw [Table.getCells_cleanFill_num hd2 h2n]
      exact fillFB_all_not_nan _ hex2
    exact cleanClip_not_nan _ n hnn3

/-- Witness for claim C1 at a concrete three-row table with one duplicate-free
timestamp column and a partially missing voltage column. -/
theorem claim_C1_witness :
    ∃ u : Table, clean_data exTableGood = Except.ok u ∧
      u.nrows ≤ exTableGood.nrows ∧
      StrictIncr (u.getCells "timestamp") ∧
      (∀ n : String, exTableGood.getDtype n = Dtype.num →
        (∃ x ∈ (cleanDedup exTableGood).getCells n, x.isNaN = false) →
        ∀ y ∈ u.getCells n, y.isNaN = false) :=
  claim_C1 exTableGood (by decide)
    (by show ∀ c ∈ exTableGood.cols, c.cells.length = exTableGood.nrows; decide)
    (by decide)

/-- Counterexample to claim C1 as stated: the input's voltage column has a
non-missing value (5), yet the cleaned output's voltage column is still
missing — the deduplication keeps only the first of the two rows sharing a
timestamp, and that row's voltage is missing, leaving the fill with nothing
to fill from. -/
theorem claim_C1_counterexample :
    (∃ x ∈ exTableDupNaN.getCells "voltage", x.isNaN = false) ∧
    (clean_data exTableDupNaN).toOption.map (fun u => u.getCells "voltage")
      = some [Val.nan] := by
  constructor
  · exact ⟨Val.rat 5, by decide, rfl⟩
  · decide

/-! ## Claim C6 — the detection passes only append columns -/

theorem additive_refl (t : Table) : Additive t t :=
  ⟨[], (List.append_nil t.cols).symm⟩

theorem find?_isSome_of_mem {α : Type} (p : α → Bool) {l : List α} {a : α}
    (ha : a ∈ l) (hp : p a = true) : (l.find? p).isSome = true :=
  List.find?_isSome.mpr ⟨a, ha, hp⟩

theorem additive_setCol_new {t u : Table} (h : Additive t u) {n : String}
    (hn : t.hasCol n = false) (d : Dtype) (cs : List Val) :
    Additive t (u.setCol n d cs) := by
  obtain ⟨ex, hex⟩ := h
  rw [Table.setCol]
  split
  · refine ⟨ex.map (fun c => if c.name = n then (⟨n, d, cs⟩ : Col) else c), ?_⟩
    show u.cols.map (fun c => if c.name = n then (⟨n, d, cs⟩ : Col) else c)
      = t.cols ++ ex.map (fun c => if c.name = n then (⟨n, d, cs⟩ : Col) else c)
    rw [hex, List.map_append]
    congr 1
    have hne : ∀ c ∈ t.cols, (if c.name = n then (⟨n, d, cs⟩ : Col) else c) = c := by
      intro c hc
      by_cases hceq : c.name = n
      · exfalso
        have hcol : t.hasCol n = true := by
          rw [Table.hasCol_eq_isSome, Table.getCol?]
          exact find?_isSome_of_mem _ hc
            (by show (c.name == n) = true; rw [hceq]; exact beq_self_eq_true n)
        rw [hn] at hcol
        cases hcol
      · rw [if_neg hceq]
    calc t.cols.map (fun c => if c.name = n then (⟨n, d, cs⟩ : Col) else c)
        = t.cols.map id := List.map_congr_left (fun a ha => hne a ha)
      _ = t.cols := List.map_id _
  · refine ⟨ex ++ [⟨n, d, cs⟩], ?_⟩
    show u.cols ++ [(⟨n, d, cs⟩ : Col)] = t.cols ++ (ex ++ [(⟨n, d, cs⟩ : Col)])
    rw [hex, List.append_assoc]

theorem statColStep_additive (sqrt : ℚ → ℚ) (thr : ℚ) {t u : Table}
    (h : Additive t u) (c : String)
    (h1 : t.hasCol (c ++ "_anomaly") = false)
    (h2 : t.hasCol (c ++ "_zscore") = false) :
    Additive t (statColStep sqrt thr u c) := by
  rw [statColStep]
  split
  · exact additive_setCol_new (additive_setCol_new h h1 _ _) h2 _ _
  · exact h

theorem statFold_additive (sqrt : ℚ → ℚ) (thr : ℚ) {t : Table} (cols : List String) :
    ∀ u : Table, Additive t u →
      (∀ c ∈ cols, t.hasCol (c ++ "_anomaly") = false ∧
        t.hasCol (c ++ "_zscore") = false) →
      Additive t (List.foldl (statColStep sqrt thr) u cols) := by
  induction cols with
  | nil => exact fun u h _ => h
  | cons c cs ih =>
    intro u h hdis
    rw [List.foldl_cons]
    exact ih _ (statColStep_additive sqrt thr h c
        (hdis c (List.mem_cons_self c cs)).1 (hdis c (List.mem_cons_self c cs)).2)
      (fun d hd => hdis d (List.mem_cons_of_mem c hd))

theorem mem_statGenNames_of_mem {cols : List String} {c : String} (h : c ∈ cols) :
    (c ++ "_anomaly") ∈ statGenNames cols ∧ (c ++ "_zscore") ∈ statGenNames cols := by
  induction cols with
  | nil => cases h
  | cons a l ih =>
    rw [statGenNames]
    rcases List.mem_cons.mp h with rfl | h2
    · exact ⟨List.mem_cons_self _ _,
        List.mem_cons_of_mem _ (List.mem_cons_self _ _)⟩
    · obtain ⟨ha, hz⟩ := ih h2
      exact ⟨List.mem_cons_of_mem _ (List.mem_cons_of_mem _ ha),
        List.mem_cons_of_mem _ (List.mem_cons_of_mem _ hz)⟩

theorem mem_statGenNames_last {cols : List String} :
    "is_anomaly" ∈ statGenNames cols := by
  induction cols with
  | nil => exact List.mem_singleton.mpr rfl
  | cons a l ih =>
    rw [statGenNames]
    exact List.mem_cons_of_mem _ (List.mem_cons_of_mem _ ih)

theorem detect_statistical_additive (sqrt : ℚ → ℚ) (columns : Option (List String))
    (thr : ℚ) {t u : Table} (h : Additive t u)
    (hdis : ∀ m ∈ statGenNames (columns.getD u.numericNames), t.hasCol m = false) :
    Additive t (detect_statistical_anomalies sqrt columns thr u) :=
  additive_setCol_new
    (statFold_additive sqrt thr (columns.getD u.numericNames) u h
      (fun c hc => ⟨hdis _ (mem_statGenNames_of_mem hc).1,
        hdis _ (mem_statGenNames_of_mem hc).2⟩))
    (hdis _ mem_statGenNames_last) Dtype.boolDt _

theorem thresholdStep_additive {t u : Table} (h : Additive t u)
    (e : String × ℚ × ℚ) (hn : t.hasCol (e.1 ++ "_violation") = false) :
    Additive t (thresholdStep u e) := by
  rw [thresholdStep]
  split
  · exact additive_setCol_new h hn _ _
  · exact h

theorem thresholdFold_additive {t : Table} (thresholds : List (String × ℚ × ℚ)) :
    ∀ u : Table, Additive t u →
      (∀ e ∈ thresholds, t.hasCol (e.1 ++ "_violation") = false) →
      Additive t (List.foldl thresholdStep u thresholds) := by
  induction thresholds with
  | nil => exact fun u h _ => h
  | cons e es ih =>
    intro u h hdis
    rw [List.foldl_cons]
    exact ih _ (thresholdStep_additive h e (hdis e (List.mem_cons_self e es)))
      (fun d hd => hdis d (List.mem_cons_of_mem e hd))

theorem detect_threshold_additive {t u : Table} (h : Additive t u)
    (thresholds : List (String × ℚ × ℚ))
    (hdis : ∀ m ∈ thresholdGenNames thresholds, t.hasCol m = false) :
    Additive t (detect_threshold_violations thresholds u) :=
  additive_setCol_new
    (thresholdFold_additive thresholds u h
      (fun e he => hdis _ (by
        rw [thresholdGenNames]
        exact List.mem_append_left _ (List.mem_map_of_mem _ he))))
    (hdis _ (by
      rw [thresholdGenNames]
      exact List.mem_append_right _ (List.mem_singleton.mpr rfl))) Dtype.boolDt _

theorem detect_sudden_additive {t u : Table} (h : Additive t u)
    (col : String) (cthr : ℚ)
    (h1 : t.hasCol (col ++ "_delta") = false)
    (h2 : t.hasCol (col ++ "_sudden_change") = false) :
    ∀ v, detect_sudden_changes col cthr u = Except.ok v → Additive t v := by
  intro v hv
  rw [detect_sudden_changes] at hv
  by_cases hc : u.hasCol col = true
  · rw [if_pos hc] at hv
    obtain rfl := (Except.ok.inj hv).symm
    exact additive_setCol_new (additive_setCol_new h h1 _ _) h2 _ _
  · rw [if_neg hc] at hv
    cases hv

theorem detect_pattern_additive {t u : Table} (h : Additive t u)
    (sqrt : ℚ → ℚ) (col : String) (window : Nat)
    (h1 : t.hasCol (col ++ "_rolling_mean") = false)
    (h2 : t.hasCol (col ++ "_rolling_std") = false)
    (h3 : t.hasCol (col ++ "_pattern_deviation") = false) :
    ∀ v, detect_pattern_deviations sqrt col window u = Except.ok v →
      Additive t v := by
  intro v hv
  rw [detect_pattern_deviations] at hv
  by_cases hc : u.hasCol col = true
  · rw [if_pos hc] at hv
    obtain rfl := (Except.ok.inj hv).symm
    exact additive_setCol_new
      (additive_setCol_new (additive_setCol_new h h1 _ _) h2 _ _) h3 _ _
  · rw [if_neg hc] at hv
    cases hv

theorem suddenStep_additive {t u : Table} (h : Additive t u) (col : String)
    (h1 : t.hasCol (col ++ "_delta") = false)
    (h2 : t.hasCol (col ++ "_sudden_change") = false) :
    Additive t (suddenStep u col) := by
  rw [suddenStep]
  split
  · cases hd : detect_sudden_changes col 10 u with
    | ok d => exact detect_sudden_additive h col 10 h1 h2 d hd
    | error e => exact h
  · exact h

theorem patternStep_additive {t u : Table} (h : Additive t u)
    (sqrt : ℚ → ℚ) (col : String)
    (h1 : t.hasCol (col ++ "_rolling_mean") = false)
    (h2 : t.hasCol (col ++ "_rolling_std") = false)
    (h3 : t.hasCol (col ++ "_pattern_deviation") = false) :
    Additive t (patternStep sqrt u col) := by
  rw [patternStep]
  split
  · cases hd : detect_pattern_deviations sqrt col 20 u with
    | ok d => exact detect_pattern_additive h sqrt col 20 h1 h2 h3 d hd
    | error e => exact h
  · exact h

theorem isoBlock_additive {t u : Table}
    (predict : Table → List String → List Val) (h : Additive t u)
    (hn : t.hasCol "isolation_forest_anomaly" = false) :
    Additive t
      (if u.numericNames.isEmpty then u
       else
        (u.setCol "isolation_forest_anomaly" Dtype.num
            (predict u u.numericNames)).setCol "isolation_forest_anomaly" Dtype.boolDt
          (((u.setCol "isolation_forest_anomaly" Dtype.num
              (predict u u.numericNames)).getCells "isolation_forest_anomaly").map
            (fun v => Val.ofBool (v == Val.rat (-1))))) := by
  split
  · exact h
  · exact additive_setCol_new (additive_setCol_new h hn _ _) hn _ _

theorem scoreBlock_additive {t u : Table} (h : Additive t u)
    (hn : t.hasCol "anomaly_score" = false) :
    Additive t
      (if (u.colNames.filter (fun n =>
          strContains n "anomaly" || strContains n "violation" ||
          strContains n "deviation" || strContains n "change")).isEmpty then u
       else u.setCol "anomaly_score" Dtype.num
        ((sumAxis1 u (u.colNames.filter (fun n =>
            strContains n "anomaly" || strContains n "violation" ||
            strContains n "deviation" || strContains n "change"))).map
          (fun s => s.div (Val.rat (u.colNames.filter (fun n =>
            strContains n "anomaly" || strContains n "violation" ||
            strContains n "deviation" || strContains n "change")).length)))) := by
  split
  · exact h
  · exact additive_setCol_new h hn _ _

set_option maxHeartbeats 2000000 in
/-- Claim C6 (amended): each detection pass — statistical, threshold,
sudden-change, pattern-deviation — and the comprehensive pipeline is
additive (every input column is kept in place with every cell unchanged,
new columns only appended) provided none of the pass's generated flag/score
column names collides with a column already in the input.  Without that
proviso the claim is false: a generated name that matches an existing
column overwrites it in place (see `claim_C6_counterexample`). -/
theorem claim_C6 (sqrt : ℚ → ℚ) (predict : Table → List String → List Val)
    (columns : Option (List String)) (thr : ℚ)
    (thresholds : List (String × ℚ × ℚ)) (col : String) (cthr : ℚ)
    (window : Nat) (othresholds : Option (List (String × ℚ × ℚ))) (t : Table) :
    ((∀ m ∈ statGenNames (columns.getD t.numericNames), t.hasCol m = false) →
      Additive t (detect_statistical_anomalies sqrt columns thr t)) ∧
    ((∀ m ∈ thresholdGenNames thresholds, t.hasCol m = false) →
      Additive t (detect_threshold_violations thresholds t)) ∧
    ((∀ m ∈ suddenGenNames col, t.hasCol m = false) →
      ∀ u, detect_sudden_changes col cthr t = Except.ok u → Additive t u) ∧
    ((∀ m ∈ patternGenNames col, t.hasCol m = false) →
      ∀ u, detect_pattern_deviations sqrt col window t = Except.ok u →
        Additive t u) ∧
    ((∀ m ∈ comprehensiveGenNames (othresholds.getD defaultThresholds) t,
        t.hasCol m = false) →
      Additive t (comprehensive_anomaly_detection sqrt predict othresholds t)) := by
  refine ⟨?_, ?_, ?_, ?_, ?_⟩
  · intro hdis
    exact detect_statistical_additive sqrt columns thr (additive_refl t) hdis
  · intro hdis
    exact detect_threshold_additive (additive_refl t) thresholds hdis
  · intro hdis
    exact detect_sudden_additive (additive_refl t) col cthr
      (hdis _ (List.mem_cons_self _ _))
      (hdis _ (List.mem_cons_of_mem _ (List.mem_cons_self _ _)))
  · intro hdis
    exact detect_pattern_additive (additive_refl t) sqrt col window
      (hdis _ (List.mem_cons_self _ _))
      (hdis _ (List.mem_cons_of_mem _ (List.mem_cons_self _ _)))
      (hdis _ (List.mem_cons_of_mem _ (List.mem_cons_of_mem _ (List.mem_cons_self _ _))))
  · intro hdis
    have hsplit : ∀ m, (m ∈ statGenNames t.numericNames ∨
        m = "isolation_forest_anomaly" ∨
        m ∈ thresholdGenNames (othresholds.getD defaultThresholds) ∨
        m ∈ suddenGenNames "temperature" ∨ m ∈ suddenGenNames "voltage" ∨
        m ∈ patternGenNames "voltage" ∨ m ∈ patternGenNames "current" ∨
        m = "anomaly_score") → t.hasCol m = false := by
      intro m hm
      apply hdis
      rw [comprehensiveGenNames]
      simp only [List.mem_append, List.mem_cons, List.not_mem_nil, or_false,
        List.mem_singleton]
      tauto
    have h1 : Additive t (detect_statistical_anomalies sqrt none 3 t) :=
      detect_statistical_additive sqrt none 3 (additive_refl t)
        (fun m hm => hsplit m (Or.inl hm))
    have h2 := isoBlock_additive predict h1 (hsplit _ (Or.inr (Or.inl rfl)))
    have h3 := detect_threshold_additive h2 (othresholds.getD defaultThresholds)
      (fun m hm => hsplit m (Or.inr (Or.inr (Or.inl hm))))
    have h4 : Additive t (List.foldl suddenStep
        (detect_threshold_violations (othresholds.getD defaultThresholds)
          (if (detect_statistical_anomalies sqrt none 3 t).numericNames.isEmpty
            then detect_statistical_anomalies sqrt none 3 t
            else
              ((detect_statistical_anomalies sqrt none 3 t).setCol
                  "isolation_forest_anomaly" Dtype.num
                  (predict (detect_statistical_anomalies sqrt none 3 t)
                    (detect_statistical_anomalies sqrt none 3 t).numericNames)).setCol
                "isolation_forest_anomaly" Dtype.boolDt
                ((((detect_statistical_anomalies sqrt none 3 t).setCol
                    "isolation_forest_anomaly" Dtype.num
                    (predict (detect_statistical_anomalies sqrt none 3 t)
                      (detect_statistical_anomalies sqrt none 3 t).numericNames)).getCells
                  "isolation_forest_anomaly").map
                  (fun v => Val.ofBool (v == Val.rat (-1))))))
        ["temperature", "voltage"]) := by
      rw [List.foldl_cons, List.foldl_cons, List.foldl_nil]
      refine suddenStep_additive (suddenStep_additive h3 "temperature" ?_ ?_) "voltage" ?_ ?_
      · exact hsplit _ (Or.inr (Or.inr (Or.inr (Or.inl (List.mem_cons_self _ _)))))
      · exact hsplit _ (Or.inr (Or.inr (Or.inr (Or.inl
          (List.mem_cons_of_mem _ (List.mem_cons_self _ _))))))
      · exact hsplit _ (Or.inr (Or.inr (Or.inr (Or.inr (Or.inl (List.mem_cons_self _ _))))))
      · exact hsplit _ (Or.inr (Or.inr (Or.inr (Or.inr (Or.inl
          (List.mem_cons_of_mem _ (List.mem_cons_self _ _)))))))
    have h5 : ∀ v : Table, Additive t v →
        Additive t (List.foldl (patternStep sqrt) v ["voltage", "current"]) := by
      intro v hv
      rw [List.foldl_cons, List.foldl_cons, List.foldl_nil]
      refine patternStep_additive (patternStep_additive hv sqrt "voltage" ?_ ?_ ?_)
        sqrt "current" ?_ ?_ ?_
      · exact hsplit _ (Or.inr (Or.inr (Or.inr (Or.inr (Or.inr (Or.inl
          (List.mem_cons_self _ _)))))))
      · exact hsplit _ (Or.inr (Or.inr (Or.inr (Or.inr (Or.inr (Or.inl
          (List.mem_cons_of_mem _ (List.mem_cons_self _ _))))))))
      · exact hsplit _ (Or.inr (Or.inr (Or.inr (Or.inr (Or.inr (Or.inl
          (List.mem_cons_of_mem _ (List.mem_cons_of_mem _ (List.mem_cons_self _ _)))))))))
      · exact hsplit _ (Or.inr (Or.inr (Or.inr (Or.inr (Or.inr (Or.inr (Or.inl
          (List.mem_cons_self _ _))))))))
      · exact hsplit _ (Or.inr (Or.inr (Or.inr (Or.inr (Or.inr (Or.inr (Or.inl
          (List.mem_cons_of_mem _ (List.mem_cons_self _ _)))))))))
      · exact hsplit _ (Or.inr (Or.inr (Or.inr (Or.inr (Or.inr (Or.inr (Or.inl
          (List.mem_cons_of_mem _ (List.mem_cons_of_mem _ (List.mem_cons_self _ _))))))))))
    exact scoreBlock_additive (h5 _ h4)
      (hsplit _ (Or.inr (Or.inr (Or.inr (Or.inr (Or.inr (Or.inr (Or.inr rfl))))))))

/-- Witness for claim C6: all five conclusions at a concrete telemetry
table, with `sqrt` taken as the identity and a trivial isolation-forest
predictor. -/
theorem claim_C6_witness :
    Additive exTableGood (detect_statistical_anomalies id none 3 exTableGood) ∧
    Additive exTableGood (detect_threshold_violations defaultThresholds exTableGood) ∧
    (∃ u, detect_sudden_changes "voltage" 10 exTableGood = Except.ok u ∧
      Additive exTableGood u) ∧
    (∃ u, detect_pattern_deviations id "voltage" 20 exTableGood = Except.ok u ∧
      Additive exTableGood u) ∧
    Additive exTableGood
      (comprehensive_anomaly_detection id (fun _ _ => []) none exTableGood) := by
  have hc := claim_C6 id (fun _ _ => []) none 3 defaultThresholds "voltage" 10 20
    none exTableGood
  refine ⟨hc.1 (by decide), hc.2.1 (by decide), ?_, ?_, hc.2.2.2.2 (by decide)⟩
  · exact ⟨_, rfl, hc.2.2.1 (by decide) _ rfl⟩
  · exact ⟨_, rfl, hc.2.2.2.1 (by decide) _ rfl⟩

/-- Counterexample to claim C6 as stated: on a table whose only column is a
numeric column named `is_anomaly`, the statistical pass overwrites that raw
column in place (its cells change from `[1, 1]` to `[0, 0]`), so the pass
is not additive for every input table. -/
theorem claim_C6_counterexample :
    (detect_statistical_anomalies id none 3 exTableIsAnomaly).getCells "is_anomaly"
      ≠ exTableIsAnomaly.getCells "is_anomaly" ∧
    ¬ Additive exTableIsAnomaly
      (detect_statistical_anomalies id none 3 exTableIsAnomaly) := by
  constructor
  · decide
  · intro h
    obtain ⟨ex, hex⟩ := h
    have h1 : (detect_statistical_anomalies id none 3 exTableIsAnomaly).cols.head?
        = some ⟨"is_anomaly", Dtype.num, [Val.rat 1, Val.rat 1]⟩ := by
      rw [hex]
      rfl
    exact absurd h1 (by decide)

/-! ## Claim C10 — constant columns and the zero standard deviation -/

theorem filter_notNaN_replicate (n : Nat) (q : ℚ) :
    (List.replicate n (Val.rat q)).filter (fun c => !c.isNaN)
      = List.replicate n (Val.rat q) :=
  List.filter_eq_self.mpr (fun a ha => by rw [List.eq_of_mem_replicate ha]; rfl)

theorem foldl_add_replicate (q : ℚ) :
    ∀ (n : Nat) (a : ℚ),
      (List.replicate n (Val.rat q)).foldl Val.add (Val.rat a)
        = Val.rat (a + n * q) := by
  intro n
  induction n with
  | zero =>
    intro a
    show Val.rat a = Val.rat (a + ((0:ℕ):ℚ) * q)
    rw [show a + ((0:ℕ):ℚ) * q = a from by push_cast; ring]
  | succ k ih =>
    intro a
    rw [List.replicate_succ, List.foldl_cons]
    have h1 : (Val.rat a).add (Val.rat q) = Val.rat (a + q) := by
      show Val.rat (qadd a q) = Val.rat (a + q)
      rw [qadd_eq]
    rw [h1, ih]
    rw [show a + q + (k:ℚ) * q = a + ((k+1 : ℕ):ℚ) * q from by push_cast; ring]

theorem Val.rat_div_rat (a b : ℚ) (hb : b.num ≠ 0) :
    (Val.rat a).div (Val.rat b) = Val.rat (qdiv a b) := by
  show (if b.num = 0 then if a.num = 0 then Val.nan
      else if 0 < a.num then Val.inf else Val.ninf
    else Val.rat (qdiv a b)) = Val.rat (qdiv a b)
  rw [if_neg hb]

theorem meanV_replicate (n : Nat) (q : ℚ) (h : 1 ≤ n) :
    meanV (List.replicate n (Val.rat q)) = Val.rat q := by
  have heq : meanV (List.replicate n (Val.rat q))
      = (((List.replicate n (Val.rat q)).filter (fun c => !c.isNaN)).foldl Val.add
          (Val.rat 0)).div
        (Val.rat (((List.replicate n (Val.rat q)).filter
          (fun c => !c.isNaN)).length : ℚ)) := rfl
  rw [heq, filter_notNaN_replicate, foldl_add_replicate, List.length_replicate]
  have hne : ((n : ℚ)).num ≠ 0 :=
    fun h0 => Nat.cast_ne_zero.mpr (by omega) (Rat.num_eq_zero.mp h0)
  rw [Val.rat_div_rat _ _ hne]
  have hval : qdiv (0 + (n:ℚ) * q) ((n:ℚ)) = q := by
    rw [qdiv_eq, zero_add]
    exact mul_div_cancel_left₀ q (Nat.cast_ne_zero.mpr (by omega))
  rw [hval]

theorem ratsOnly?_replicate (n : Nat) (q : ℚ) :
    ratsOnly? (List.replicate n (Val.rat q)) = some (List.replicate n q) := by
  induction n with
  | zero => rfl
  | succ k ih =>
    rw [List.replicate_succ, List.replicate_succ]
    show (ratsOnly? (List.replicate k (Val.rat q))).map (fun rs => q :: rs)
      = some (q :: List.replicate k q)
    rw [ih]
    rfl

theorem qsum_replicate (n : Nat) (q : ℚ) :
    qsum (List.replicate n q) = (n : ℚ) * q := by
  induction n with
  | zero =>
    show (0 : ℚ) = ((0:ℕ):ℚ) * q
    push_cast
    ring
  | succ k ih =>
    rw [List.replicate_succ]
    show qadd q (qsum (List.replicate k q)) = ((k+1 : ℕ):ℚ) * q
    rw [qadd_eq, ih]
    push_cast
    ring

theorem sampleVar_replicate_eq (n : Nat) (q : ℚ) :
    sampleVar (List.replicate n (Val.rat q))
      = (if (List.replicate n q).length < 2 then Val.nan
         else Val.rat (qdiv
            (qsum ((List.replicate n q).map (fun x =>
              qmul (qsub x (qdiv (qsum (List.replicate n q))
                  (((List.replicate n q).length : ℚ))))
                (qsub x (qdiv (qsum (List.replicate n q))
                  (((List.replicate n q).length : ℚ)))))))
            (qsub (((List.replicate n q).length : ℚ)) 1))) := by
  have heq : sampleVar (List.replicate n (Val.rat q))
      = (match ratsOnly? ((List.replicate n (Val.rat q)).filter (fun c => !c.isNaN)) with
        | none => Val.nan
        | some rs =>
          if rs.length < 2 then Val.nan
          else Val.rat (qdiv (qsum (rs.map (fun x =>
              qmul (qsub x (qdiv (qsum rs) ((rs.length : ℚ))))
                (qsub x (qdiv (qsum rs) ((rs.length : ℚ)))))))
            (qsub ((rs.length : ℚ)) 1))) := rfl
  rw [heq, filter_notNaN_replicate, ratsOnly?_replicate]

theorem sampleVar_replicate (n : Nat) (q : ℚ) (h : 2 ≤ n) :
    sampleVar (List.replicate n (Val.rat q)) = Val.rat 0 := by
  rw [sampleVar_replicate_eq, List.length_replicate, if_neg (by omega)]
  rw [List.map_replicate, qsum_replicate, qsum_replicate]
  congr 1
  have hn0 : (n:ℚ) ≠ 0 := Nat.cast_ne_zero.mpr (by omega)
  simp only [qdiv_eq, qsub_eq, qmul_eq]
  rw [mul_div_cancel_left₀ q hn0, sub_self]
  simp

theorem sampleVar_replicate_small (n : Nat) (q : ℚ) (h : n < 2) :
    sampleVar (List.replicate n (Val.rat q)) = Val.nan := by
  rw [sampleVar_replicate_eq, List.length_replicate, if_pos h]

theorem stdV_replicate (sqrt : ℚ → ℚ) (hsq : sqrt 0 = 0) (n : Nat) (q : ℚ)
    (h2 : 2 ≤ n) : stdV sqrt (List.replicate n (Val.rat q)) = Val.rat 0 := by
  rw [stdV, sampleVar_replicate n q h2]
  show Val.rat (sqrt 0) = Val.rat 0
  rw [hsq]

theorem stdV_replicate_small (sqrt : ℚ → ℚ) (n : Nat) (q : ℚ) (h : n < 2) :
    stdV sqrt (List.replicate n (Val.rat q)) = Val.nan := by
  rw [stdV, sampleVar_replicate_small n q h]

theorem Val.div_nan (a : Val) : a.div Val.nan = Val.nan := by
  cases a <;> rfl

theorem zscore_const (sqrt : ℚ → ℚ) (hsq : sqrt 0 = 0) (n : Nat) (q : ℚ)
    (h1 : 1 ≤ n) :
    (((Val.rat q).sub (meanV (List.replicate n (Val.rat q)))).div
      (stdV sqrt (List.replicate n (Val.rat q)))).abs = Val.nan := by
  by_cases h2 : 2 ≤ n
  · rw [meanV_replicate n q h1, stdV_replicate sqrt hsq n q h2]
    have hs : (Val.rat q).sub (Val.rat q) = Val.rat 0 := by
      show Val.rat (qadd q (qneg q)) = Val.rat 0
      rw [show qadd q (qneg q) = 0 from by rw [qadd_eq, qneg_eq]; ring]
    rw [hs]
    decide
  · rw [stdV_replicate_small sqrt n q (by omega), Val.div_nan]
    rfl

theorem statColStep_eq (sqrt : ℚ → ℚ) (thr : ℚ) (u : Table) (c : String)
    (hc : u.hasCol c = true) :
    statColStep sqrt thr u c
      = (u.setCol (c ++ "_anomaly") Dtype.boolDt
          (((u.getCells c).map (fun x => ((x.sub (meanV (u.getCells c))).div
              (stdV sqrt (u.getCells c))).abs)).map
            (fun z => Val.ofBool (z.gtB (Val.rat thr))))).setCol
          (c ++ "_zscore") Dtype.num
          ((u.getCells c).map (fun x => ((x.sub (meanV (u.getCells c))).div
            (stdV sqrt (u.getCells c))).abs)) := by
  rw [statColStep, if_pos hc]

theorem statColStep_hasCol_ne (sqrt : ℚ → ℚ) (thr : ℚ) (u : Table) (c : String)
    {m : String} (h1 : m ≠ c ++ "_anomaly") (h2 : m ≠ c ++ "_zscore") :
    (statColStep sqrt thr u c).hasCol m = u.hasCol m := by
  by_cases hcol : u.hasCol c = true
  · rw [statColStep_eq sqrt thr u c hcol, Table.hasCol_setCol_ne _ h2,
      Table.hasCol_setCol_ne _ h1]
  · rw [statColStep, if_neg hcol]

theorem statColStep_getCells_ne (sqrt : ℚ → ℚ) (thr : ℚ) (u : Table) (c : String)
    {m : String} (h1 : m ≠ c ++ "_anomaly") (h2 : m ≠ c ++ "_zscore") :
    (statColStep sqrt thr u c).getCells m = u.getCells m := by
  by_cases hcol : u.hasCol c = true
  · rw [statColStep_eq sqrt thr u c hcol, Table.getCells_setCol_ne _ h2,
      Table.getCells_setCol_ne _ h1]
  · rw [statColStep, if_neg hcol]

theorem statColStep_const (sqrt : ℚ → ℚ) (hsq : sqrt 0 = 0) (thr : ℚ)
    (u : Table) (c : String) (hc : u.hasCol c = true) (q : ℚ)
    (hq : ∀ x ∈ u.getCells c, x = Val.rat q)
    (hne : (c ++ "_anomaly") ≠ (c ++ "_zscore")) :
    (∀ z ∈ (statColStep sqrt thr u c).getCells (c ++ "_zscore"), z = Val.nan) ∧
    (∀ b ∈ (statColStep sqrt thr u c).getCells (c ++ "_anomaly"), b = Val.rat 0) := by
  have hzs : ∀ z ∈ (u.getCells c).map (fun x => ((x.sub (meanV (u.getCells c))).div
      (stdV sqrt (u.getCells c))).abs), z = Val.nan := by
    intro z hz
    obtain ⟨x, hx, rfl⟩ := List.mem_map.mp hz
    rw [hq x hx]
    have hlen : 1 ≤ (u.getCells c).length :=
      List.length_pos.mpr (List.ne_nil_of_mem hx)
    rw [List.eq_replicate_of_mem hq]
    exact zscore_const sqrt hsq _ q hlen
  constructor
  · intro z hz
    rw [statColStep_eq sqrt thr u c hc, Table.getCells_setCol_self] at hz
    exact hzs z hz
  · intro b hb
    rw [statColStep_eq sqrt thr u c hc, Table.getCells_setCol_ne _ hne,
      Table.getCells_setCol_self] at hb
    obtain ⟨z, hzmem, rfl⟩ := List.mem_map.mp hb
    rw [hzs z hzmem]
    rfl

theorem statFold_getCells_ne (sqrt : ℚ → ℚ) (thr : ℚ) :
    ∀ (cols : List String) (u : Table) (m : String),
      (∀ c ∈ cols, m ≠ c ++ "_anomaly" ∧ m ≠ c ++ "_zscore") →
      (List.foldl (statColStep sqrt thr) u cols).getCells m = u.getCells m := by
  intro cols
  induction cols with
  | nil => intro u m _; rfl
  | cons a l ih =>
    intro u m hm
    rw [List.foldl_cons, ih _ m (fun c hc => hm c (List.mem_cons_of_mem a hc)),
      statColStep_getCells_ne sqrt thr u a (hm a (List.mem_cons_self a l)).1
        (hm a (List.mem_cons_self a l)).2]

theorem statFold_const (sqrt : ℚ → ℚ) (hsq : sqrt 0 = 0) (thr : ℚ) :
    ∀ (cols : List String) (u : Table) (c : String),
      (statGenNames cols).Nodup →
      (∀ m ∈ statGenNames cols, u.hasCol m = false) →
      c ∈ cols →
      u.hasCol c = true →
      (∃ q : ℚ, ∀ x ∈ u.getCells c, x = Val.rat q) →
      (∀ z ∈ (List.foldl (statColStep sqrt thr) u cols).getCells (c ++ "_zscore"),
        z = Val.nan) ∧
      (∀ b ∈ (List.foldl (statColStep sqrt thr) u cols).getCells (c ++ "_anomaly"),
        b = Val.rat 0) := by
  intro cols
  induction cols with
  | nil => intro u c _ _ hc _ _; cases hc
  | cons a l ih =>
    intro u c hnod hdis hc hhc hq
    rw [statGenNames] at hnod
    obtain ⟨hn1, hnod2⟩ := List.nodup_cons.mp hnod
    obtain ⟨hn2, hnodG⟩ := List.nodup_cons.mp hnod2
    have hanG : (a ++ "_anomaly") ∉ statGenNames l :=
      fun h => hn1 (List.mem_cons.mpr (Or.inr h))
    rw [List.foldl_cons]
    rcases List.mem_cons.mp hc with rfl | hc2
    · have hne_az : (c ++ "_anomaly") ≠ (c ++ "_zscore") :=
        fun h => hn1 (List.mem_cons.mpr (Or.inl h))
      obtain ⟨qa, hqa⟩ := hq
      have hstepconst := statColStep_const sqrt hsq thr u c hhc qa hqa hne_az
      have hzsne : ∀ c' ∈ l, (c ++ "_zscore") ≠ c' ++ "_anomaly" ∧
          (c ++ "_zscore") ≠ c' ++ "_zscore" := by
        intro c' hc'
        obtain ⟨hma, hmz⟩ := mem_statGenNames_of_mem hc'
        exact ⟨fun h => hn2 (by rw [h]; exact hma),
          fun h => hn2 (by rw [h]; exact hmz)⟩
      have hasne : ∀ c' ∈ l, (c ++ "_anomaly") ≠ c' ++ "_anomaly" ∧
          (c ++ "_anomaly") ≠ c' ++ "_zscore" := by
        intro c' hc'
        obtain ⟨hma, hmz⟩ := mem_statGenNames_of_mem hc'
        exact ⟨fun h => hanG (by rw [h]; exact hma),
          fun h => hanG (by rw [h]; exact hmz)⟩
      constructor
      · intro z hz
        rw [statFold_getCells_ne sqrt thr l (statColStep sqrt thr u c)
          (c ++ "_zscore") hzsne] at hz
        exact hstepconst.1 z hz
      · intro b hb
        rw [statFold_getCells_ne sqrt thr l (statColStep sqrt thr u c)
          (c ++ "_anomaly") hasne] at hb
        exact hstepconst.2 b hb
    · have hne1 : c ≠ a ++ "_anomaly" := by
        intro h
        have hfa := hdis (a ++ "_anomaly") (List.mem_cons_self _ _)
        rw [← h, hhc] at hfa
        cases hfa
      have hne2 : c ≠ a ++ "_zscore" := by
        intro h
        have hfa := hdis (a ++ "_zscore")
          (List.mem_cons_of_mem _ (List.mem_cons_self _ _))
        rw [← h, hhc] at hfa
        cases hfa
      refine ih (statColStep sqrt thr u a) c hnodG ?_ hc2 ?_ ?_
      · intro m hm
        have hmne1 : m ≠ a ++ "_anomaly" := by
          intro h
          exact hanG (by rw [← h]; exact hm)
        have hmne2 : m ≠ a ++ "_zscore" := by
          intro h
          exact hn2 (by rw [← h]; exact hm)
        rw [statColStep_hasCol_ne sqrt thr u a hmne1 hmne2]
        exact hdis m (List.mem_cons_of_mem _ (List.mem_cons_of_mem _ hm))
      · rw [statColStep_hasCol_ne sqrt thr u a hne1 hne2]
        exact hhc
      · obtain ⟨q', hq'⟩ := hq
        refine ⟨q', ?_⟩
        rw [statColStep_getCells_ne sqrt thr u a hne1 hne2]
        exact hq'

theorem statGenNames_ne_last {cols : List String}
    (hnod : (statGenNames cols).Nodup) :
    ∀ c ∈ cols, (c ++ "_anomaly") ≠ "is_anomaly" ∧
      (c ++ "_zscore") ≠ "is_anomaly" := by
  induction cols with
  | nil => intro c hc; cases hc
  | cons a l ih =>
    rw [statGenNames] at hnod
    obtain ⟨h1, hnod2⟩ := List.nodup_cons.mp hnod
    obtain ⟨h2, hnodG⟩ := List.nodup_cons.mp hnod2
    intro c hc
    rcases List.mem_cons.mp hc with rfl | hc2
    · constructor
      · intro he
        exact h1 (by rw [he]; exact List.mem_cons_of_mem _ mem_statGenNames_last)
      · intro he
        exact h2 (by rw [he]; exact mem_statGenNames_last)
    · exact ih hnodG c hc2

theorem exists_const_rat {cells : List Val}
    (hfin : ∀ x ∈ cells, x.isFinite = true)
    (heq : ∀ x ∈ cells, ∀ y ∈ cells, x = y) :
    ∃ q : ℚ, ∀ x ∈ cells, x = Val.rat q := by
  cases cells with
  | nil => exact ⟨0, fun x hx => absurd hx (List.not_mem_nil x)⟩
  | cons a l =>
    obtain ⟨q, rfl⟩ := Val.isFinite_iff.mp (hfin a (List.mem_cons_self a l))
    exact ⟨q, fun x hx => heq x hx _ (List.mem_cons_self _ l)⟩

theorem Val.truthy_ofBool (b : Bool) : (Val.ofBool b).truthy = b := by
  cases b <;> decide

/-- Claim C10: for any input table with fresh, mutually distinct generated
flag/score names and any `sqrt` exact at 0, a checked column whose values
are all present and equal — the other checked columns arbitrary — gives
all-`NaN` z-scores and an all-false `<col>_anomaly` flag (the zero standard
deviation raises nothing — the pass is total); and that constant column
alone never makes `is_anomaly` true: whenever `is_anomaly` is true on a
row, some other checked column's anomaly flag is true there. -/
theorem claim_C10 (sqrt : ℚ → ℚ) (hsq : sqrt 0 = 0) (thr : ℚ)
    (cols : List String) (c : String) (t : Table)
    (hc : c ∈ cols)
    (hnod : (statGenNames cols).Nodup)
    (hdis : ∀ m ∈ statGenNames cols, t.hasCol m = false)
    (hhc : t.hasCol c = true)
    (hfin : ∀ x ∈ t.getCells c, x.isFinite = true)
    (heqc : ∀ x ∈ t.getCells c, ∀ y ∈ t.getCells c, x = y) :
    (∀ z ∈ (detect_statistical_anomalies sqrt (some cols) thr t).getCells
        (c ++ "_zscore"), z = Val.nan) ∧
    (∀ b ∈ (detect_statistical_anomalies sqrt (some cols) thr t).getCells
        (c ++ "_anomaly"), b = Val.rat 0) ∧
    (∀ i : Nat,
      (((detect_statistical_anomalies sqrt (some cols) thr t).getCells
        "is_anomaly").getD i Val.nan).truthy = true →
      ∃ c2 ∈ cols, c2 ≠ c ∧
        (((detect_statistical_anomalies sqrt (some cols) thr t).getCells
          (c2 ++ "_anomaly")).getD i Val.nan).truthy = true) := by
  have hfold := statFold_const sqrt hsq thr cols t c hnod hdis hc hhc
    (exists_const_rat hfin heqc)
  have hd : detect_statistical_anomalies sqrt (some cols) thr t
      = (List.foldl (statColStep sqrt thr) t cols).setCol "is_anomaly" Dtype.boolDt
        (anyAxis1 (List.foldl (statColStep sqrt thr) t cols)
          ((cols.filter (fun c2 => (List.foldl (statColStep sqrt thr) t cols).hasCol
            (c2 ++ "_anomaly"))).map (fun c2 => c2 ++ "_anomaly"))) := rfl
  refine ⟨?_, ?_, ?_⟩
  · intro z hz
    rw [hd, Table.getCells_setCol_ne _ (statGenNames_ne_last hnod c hc).2] at hz
    exact hfold.1 z hz
  · intro b hb
    rw [hd, Table.getCells_setCol_ne _ (statGenNames_ne_last hnod c hc).1] at hb
    exact hfold.2 b hb
  · intro i htr
    rw [hd, Table.getCells_setCol_self, anyAxis1] at htr
    by_cases hi : i < (List.range
        ((List.foldl (statColStep sqrt thr) t cols).nrows)).length
    · rw [List.getD_eq_getElem _ Val.nan (by rw [List.length_map]; exact hi),
        List.getElem_map, List.getElem_range, Val.truthy_ofBool] at htr
      obtain ⟨nm, hnm, hp⟩ := List.any_eq_true.mp htr
      obtain ⟨c2, hcf, rfl⟩ := List.mem_map.mp hnm
      have hc2cols : c2 ∈ cols := (List.mem_filter.mp hcf).1
      by_cases hcc : c2 = c
      · exfalso
        subst hcc
        by_cases hlen : i < ((List.foldl (statColStep sqrt thr) t cols).getCells
            (c2 ++ "_anomaly")).length
        · rw [List.getD_eq_getElem _ Val.nan hlen,
            hfold.2 _ (List.getElem_mem hlen)] at hp
          exact absurd hp (by decide)
        · rw [List.getD_eq_default _ Val.nan (by omega)] at hp
          exact absurd hp (by decide)
      · refine ⟨c2, hc2cols, hcc, ?_⟩
        rw [hd, Table.getCells_setCol_ne _ (statGenNames_ne_last hnod c2 hc2cols).1]
        exact hp
    · rw [List.getD_eq_default _ Val.nan (by rw [List.length_map]; omega)] at htr
      exact absurd htr (by decide)

/-- Witness for claim C10 at a mixed table: the voltage column is constant
while the temperature column varies. -/
theorem claim_C10_witness :
    (∀ z ∈ (detect_statistical_anomalies id (some ["voltage", "temperature"]) 3
        exTableMixed).getCells ("voltage" ++ "_zscore"), z = Val.nan) ∧
    (∀ b ∈ (detect_statistical_anomalies id (some ["voltage", "temperature"]) 3
        exTableMixed).getCells ("voltage" ++ "_anomaly"), b = Val.rat 0) ∧
    (∀ i : Nat,
      (((detect_statistical_anomalies id (some ["voltage", "temperature"]) 3
        exTableMixed).getCells "is_anomaly").getD i Val.nan).truthy = true →
      ∃ c2 ∈ ["voltage", "temperature"], c2 ≠ "voltage" ∧
        (((detect_statistical_anomalies id (some ["voltage", "temperature"]) 3
          exTableMixed).getCells (c2 ++ "_anomaly")).getD i Val.nan).truthy = true) :=
  claim_C10 id rfl 3 ["voltage", "temperature"] "voltage" exTableMixed
    (by decide) (by decide) (by decide) (by decide) (by decide) (by decide)

end BESS
